import Mathlib

/-!
# go-type: matchmaking sweep and per-match session engine

A shallow embedding of `src/server/server.go` and `src/client/client.go`.

* Clients are heap objects reached through pointers (`*cl.Client`); the heap is
  a function from pointers to `Client` records.
* The waiting pool (`map[string]*cl.Client`) is an association list with
  distinct keys, listed in the order in which `range` visits the map.
* A `GameSession` is driven by two loops (`handlePlayerGame`), modelled as a
  step function over a program counter per loop; every lock-protected section
  is one atomic step and appends its lock, unlock and write events to a log.
* `float64` values are kept abstract: the code only copies them and converts
  `characters_typed` with `int(...)`.
-/

namespace GoType

/-! ## client.go -/

/-- The values of `ClientState` that the program uses. -/
inductive ClientState where
  | StateWaiting
  | StatePlaying
  | StateDone
deriving DecidableEq, Repr

/-- A pointer `*cl.Client`. -/
abbrev Ptr := Nat

/-- The struct `Client`; `Conn` is the handle of the websocket connection. -/
structure Client where
  name : String
  Id : String
  Conn : Nat
  wpm : Nat
  Opponents : List Ptr
  State : ClientState
deriving DecidableEq, Repr

/-- The objects that client pointers refer to. -/
abbrev Heap := Ptr → Client

/-- Assignment through a pointer: `p.field = ...` rewrites the object at `p`. -/
def Heap.store (h : Heap) (p : Ptr) (c : Client) : Heap :=
  fun q => if q = p then c else h q

/-! ## float64 -/

/-- What the session code needs of `float64`: the zero value of a fresh struct
field and the conversion `int(x)`. -/
class Float64 (F : Type) where
  zero : F
  toInt : F → Int

/-- Integral `float64` values, for concrete scenarios. Within the range of the
64-bit `int`, `int(x)` is `x`; outside it Go leaves the result to the
implementation, and this is what the amd64 compiler gives (the conversion
instruction returns the least `int`). -/
instance : Float64 Int where
  zero := 0
  toInt := fun x =>
    if -9223372036854775808 ≤ x ∧ x < 9223372036854775808 then x
    else -9223372036854775808

/-! ## Messages and events -/

/-- The `result` field of a `game_over` message. -/
inductive GameResult where
  | win
  | lose
deriving DecidableEq, Repr

/-- The messages the server writes to a connection. -/
inductive ServerMsg (F : Type) where
  | gameStart (text : String) (startAt : Int) (textLength : Nat)
  | opponentWpm (wpm : F)
  | opponentDisconnected
  | gameOver (result : GameResult) (yourWpm : F) (opponentWpm : F)
deriving DecidableEq, Repr

/-- What a session does that is visible from outside: taking and releasing
`s.mu`, and writing a message to the connection of player 1 (`true`) or of
player 2 (`false`). -/
inductive Event (F : Type) where
  | lock
  | unlock
  | write (toPlayer1 : Bool) (msg : ServerMsg F)
deriving DecidableEq, Repr

/-- A decoded JSON value as `encoding/json` stores it in `interface{}`. -/
inductive JSONValue (F : Type) where
  | string (s : String)
  | number (x : F)
  | bool (b : Bool)
  | null
  | array
  | object
deriving DecidableEq, Repr

/-- The result of `player.Conn.ReadMessage()` followed by `json.Unmarshal`:
`err` is a read error; `message none` is a payload that does not unmarshal into
a map; `message (some fields)` is the decoded map. -/
inductive ReadResult (F : Type) where
  | err
  | message (parsed : Option (List (String × JSONValue F)))
deriving DecidableEq, Repr

/-! ## GameSession -/

/-- The struct `GameSession` (the mutex is represented by the events). -/
structure GameSession (F : Type) where
  player1 : Ptr
  player2 : Ptr
  gameText : String
  player1Progress : Int
  player2Progress : Int
  player1WPM : F
  player2WPM : F
  gameOver : Bool
deriving DecidableEq, Repr

/-- The Go expression `len(s.gameText)`: the length in bytes. -/
def GameSession.textLength {F : Type} (s : GameSession F) : Int :=
  (s.gameText.utf8ByteSize : Int)

/-- The method `broadcastWPM`, called with the opponent: one write. -/
def broadcastWPM {F : Type} (toPlayer1 : Bool) (wpm : F) : List (Event F) :=
  [Event.write toPlayer1 (ServerMsg.opponentWpm wpm)]

/-- The method `handleDisconnect`: the whole body runs with the lock held
(`defer s.mu.Unlock()`). -/
def handleDisconnect {F : Type} (s : GameSession F) (isPlayer1 : Bool) :
    GameSession F × List (Event F) :=
  if s.gameOver then
    (s, [Event.lock, Event.unlock])
  else
    ({ s with gameOver := true },
     [Event.lock, Event.write (!isPlayer1) ServerMsg.opponentDisconnected, Event.unlock])

/-- The method `endGame`: reads both recorded wpm values and writes the win
message to the winner, then the lose message to the loser. It runs without the
lock; each wpm value is read once, so both messages carry the same two
values. -/
def endGame {F : Type} (s : GameSession F) (player1Won : Bool) : List (Event F) :=
  let winnerWPM := if player1Won then s.player1WPM else s.player2WPM
  let loserWPM := if player1Won then s.player2WPM else s.player1WPM
  [Event.write player1Won (ServerMsg.gameOver GameResult.win winnerWPM loserWPM),
   Event.write (!player1Won) (ServerMsg.gameOver GameResult.lose loserWPM winnerWPM)]

/-- The checks of `handlePlayerGame` between `ReadMessage` and `s.mu.Lock()`:
the payload must be a map whose `type` is the string `progress` and whose
`characters_typed` and `wpm` are numbers; anything else makes the loop
`continue`. -/
def progressOf {F : Type} (parsed : Option (List (String × JSONValue F))) : Option (F × F) :=
  match parsed with
  | none => none
  | some msg =>
    match msg.lookup "type" with
    | some (JSONValue.string msgType) =>
      if msgType = "progress" then
        match msg.lookup "characters_typed", msg.lookup "wpm" with
        | some (JSONValue.number charsTyped), some (JSONValue.number wpm) => some (charsTyped, wpm)
        | _, _ => none
      else none
    | _ => none

/-- The decoded map of a well-formed progress message. -/
def progressFields {F : Type} (charsTyped wpm : F) : List (String × JSONValue F) :=
  [("type", JSONValue.string "progress"),
   ("characters_typed", JSONValue.number charsTyped),
   ("wpm", JSONValue.number wpm)]

/-- The lock-protected section of the `progress` case of `handlePlayerGame`
(from `s.mu.Lock()` to the matching `s.mu.Unlock()`). The Boolean says whether
the section took the branch that goes on to `s.endGame(isPlayer1)`. -/
def progressSection {F : Type} [Float64 F] (s : GameSession F) (isPlayer1 : Bool)
    (charsTyped wpm : F) : GameSession F × List (Event F) × Bool :=
  let s1 : GameSession F :=
    if isPlayer1 then
      { s with player1Progress := Float64.toInt charsTyped, player1WPM := wpm }
    else
      { s with player2Progress := Float64.toInt charsTyped, player2WPM := wpm }
  let evs := [Event.lock] ++ broadcastWPM (!isPlayer1) wpm
  if s1.textLength ≤ Float64.toInt charsTyped ∧ s1.gameOver = false then
    ({ s1 with gameOver := true }, evs ++ [Event.unlock], true)
  else
    (s1, evs ++ [Event.unlock], false)

/-! ## The two loops -/

/-- Where a `handlePlayerGame` loop stands. -/
inductive LoopPC where
  /-- At the top of the `for`, before the locked test of `s.gameOver`. -/
  | atCheck
  /-- Blocked in `player.Conn.ReadMessage()`. -/
  | atRead
  /-- Past `s.gameOver = true; s.mu.Unlock()`, before `s.endGame(isPlayer1)`. -/
  | atEndGame
  /-- The loop has returned. -/
  | returned
deriving DecidableEq, Repr

/-- A running session: the shared struct, one program counter per loop, and
the log of events so far. -/
structure Sys (F : Type) where
  session : GameSession F
  pc1 : LoopPC
  pc2 : LoopPC
  log : List (Event F)
deriving DecidableEq, Repr

/-- One scheduling decision: which loop moves, and, for a read, what
`ReadMessage` delivers. -/
inductive Step (F : Type) where
  | check (isPlayer1 : Bool)
  | recv (isPlayer1 : Bool) (r : ReadResult F)
  | endGame (isPlayer1 : Bool)
deriving DecidableEq, Repr

/-- The loop that takes a step. -/
def Step.player {F : Type} : Step F → Bool
  | Step.check b => b
  | Step.recv b _ => b
  | Step.endGame b => b

/-- The program counter of a loop. -/
def Sys.pc {F : Type} (sys : Sys F) (isPlayer1 : Bool) : LoopPC :=
  if isPlayer1 then sys.pc1 else sys.pc2

/-- Move the program counter of a loop. -/
def Sys.setPC {F : Type} (sys : Sys F) (isPlayer1 : Bool) (v : LoopPC) : Sys F :=
  if isPlayer1 then { sys with pc1 := v } else { sys with pc2 := v }

/-- The recorded wpm of a player. -/
def GameSession.wpmOf {F : Type} (s : GameSession F) (isPlayer1 : Bool) : F :=
  if isPlayer1 then s.player1WPM else s.player2WPM

/-- The recorded progress of a player. -/
def GameSession.progressOfPlayer {F : Type} (s : GameSession F) (isPlayer1 : Bool) : Int :=
  if isPlayer1 then s.player1Progress else s.player2Progress

/-- One step of `handlePlayerGame` for the chosen loop. A step that the loop
cannot take where it stands leaves the system unchanged. -/
def step {F : Type} [Float64 F] (sys : Sys F) : Step F → Sys F
  | Step.check b =>
    if sys.pc b = LoopPC.atCheck then
      let sys1 := { sys with log := sys.log ++ [Event.lock, Event.unlock] }
      if sys.session.gameOver then sys1.setPC b LoopPC.returned
      else sys1.setPC b LoopPC.atRead
    else sys
  | Step.recv b r =>
    if sys.pc b = LoopPC.atRead then
      match r with
      | ReadResult.err =>
        let res := handleDisconnect sys.session b
        ({ sys with session := res.1, log := sys.log ++ res.2 }).setPC b LoopPC.returned
      | ReadResult.message parsed =>
        match progressOf parsed with
        | none => sys.setPC b LoopPC.atCheck
        | some (charsTyped, wpm) =>
          let res := progressSection sys.session b charsTyped wpm
          ({ sys with session := res.1, log := sys.log ++ res.2.1 }).setPC b
            (if res.2.2 then LoopPC.atEndGame else LoopPC.atCheck)
    else sys
  | Step.endGame b =>
    if sys.pc b = LoopPC.atEndGame then
      ({ sys with log := sys.log ++ endGame sys.session b }).setPC b LoopPC.returned
    else sys

/-- Run a schedule. -/
def run {F : Type} [Float64 F] (sys : Sys F) (steps : List (Step F)) : Sys F :=
  steps.foldl step sys

/-- The session as `StartGame` creates it. -/
def newSession {F : Type} [Float64 F] (player1 player2 : Ptr) (gameText : String) :
    GameSession F :=
  { player1 := player1, player2 := player2, gameText := gameText,
    player1Progress := 0, player2Progress := 0,
    player1WPM := Float64.zero, player2WPM := Float64.zero, gameOver := false }

/-- Both loops just started on a fresh session. -/
def initSys {F : Type} [Float64 F] (player1 player2 : Ptr) (gameText : String) : Sys F :=
  { session := newSession player1 player2 gameText,
    pc1 := LoopPC.atCheck, pc2 := LoopPC.atCheck, log := [] }

/-! ## Matchmaking -/

/-- The map `map[string]*cl.Client`, listed in the order in which the `range`
loop of `Matchmaking` visits it. -/
abbrev Pool := List (String × Ptr)

/-- The builtin `delete(*clients, id)`. -/
def Pool.delete (pool : Pool) (id : String) : Pool :=
  pool.filter fun e => decide (e.1 ≠ id)

/-- What one run of `Matchmaking` leaves behind: the client objects, the map,
and the `go StartGame(player_1, player_2, ...)` calls it dispatched, in order.
The dispatched calls run in goroutines of their own and are not part of the
sweep. -/
structure Sweep where
  heap : Heap
  clients : Pool
  started : List (Ptr × Ptr)

/-- The first loop of `Matchmaking`: the slices `waitingIDs` and `waiting`,
kept together entry by entry (the loop appends to both at once). -/
def collectWaiting (h : Heap) (clients : Pool) : Pool :=
  clients.filter fun e => decide ((h e.2).State = ClientState.StateWaiting)

/-- The second loop of `Matchmaking`, `for i := 0; i+1 < len(waiting); i += 2`:
the argument is what is left of `waiting` from index `i` on. -/
def pairLoop : Pool → Sweep → Sweep
  | (id_1, player_1) :: (id_2, player_2) :: rest, st =>
    let h1 := st.heap.store player_1 { st.heap player_1 with Opponents := [player_2] }
    let h2 := h1.store player_2 { h1 player_2 with Opponents := [player_1] }
    let h3 := h2.store player_1 { h2 player_1 with State := ClientState.StatePlaying }
    let h4 := h3.store player_2 { h3 player_2 with State := ClientState.StatePlaying }
    pairLoop rest
      { heap := h4,
        clients := (st.clients.delete id_1).delete id_2,
        started := st.started ++ [(player_1, player_2)] }
  | _, st => st

/-- The function `Matchmaking`. -/
def Matchmaking (h : Heap) (clients : Pool) : Sweep :=
  pairLoop (collectWaiting h clients) { heap := h, clients := clients, started := [] }

/-- The entries of `waiting` that the pairing loop consumes: all of them, but
for the last one when their number is odd. -/
def pairedEntries : Pool → Pool
  | a :: b :: rest => a :: b :: pairedEntries rest
  | _ => []

/-- The entry of `waiting` that the pairing loop does not reach, if any. -/
def unpairedEntries : Pool → Pool
  | _ :: _ :: rest => unpairedEntries rest
  | l => l

/-- The pairs `(waiting[i], waiting[i+1])` for `i = 0, 2, 4, ...`. -/
def pairUp : Pool → List (Ptr × Ptr)
  | a :: b :: rest => (a.2, b.2) :: pairUp rest
  | _ => []

/-! ## StartGame -/

/-- The predicate `unicode.IsSpace`. -/
def isSpace (c : Char) : Bool :=
  let n := c.toNat
  (9 ≤ n ∧ n ≤ 13) ∨ n = 32 ∨ n = 0x85 ∨ n = 0xA0 ∨ n = 0x1680 ∨
    (0x2000 ≤ n ∧ n ≤ 0x200a) ∨ n = 0x2028 ∨ n = 0x2029 ∨ n = 0x202f ∨
    n = 0x205f ∨ n = 0x3000

/-- The function `strings.TrimSpace`. -/
def trimSpace (s : String) : String :=
  String.mk ((s.data.dropWhile isSpace).reverse.dropWhile isSpace).reverse

/-- The errors `StartGame` returns. -/
inductive StartError where
  | readTextFile
  | sendPlayer1
  | sendPlayer2
deriving DecidableEq, Repr

/-- How a call of `StartGame` ends under given inputs. -/
inductive StartOutcome (F : Type) where
  /-- An error is returned. -/
  | failed (err : StartError) (heap : Heap) (log : List (Event F))
  /-- The call is still in `wg.Wait()` when the schedule is used up. -/
  | waiting (heap : Heap) (log : List (Event F))
  /-- The call returns `nil`. -/
  | finished (heap : Heap) (log : List (Event F))

/-- The function `StartGame`. Its inputs from outside are the result of
`os.ReadFile` (`none` for an error), the clock, whether each of the two
`game_start` writes succeeds, and the schedule of the two loops.
`json.Marshal` of a map of strings and integers does not fail. -/
def StartGame {F : Type} [Float64 F] (h : Heap) (player1 player2 : Ptr)
    (content : Option String) (now : Int) (send1 send2 : Bool)
    (schedule : List (Step F)) : StartOutcome F :=
  match content with
  | none => StartOutcome.failed StartError.readTextFile h []
  | some c =>
    let gameText := trimSpace c
    let message : ServerMsg F :=
      ServerMsg.gameStart gameText (now + 3) gameText.utf8ByteSize
    if send1 = false then
      StartOutcome.failed StartError.sendPlayer1 h [Event.write true message]
    else if send2 = false then
      StartOutcome.failed StartError.sendPlayer2 h
        [Event.write true message, Event.write false message]
    else
      let sys := run (initSys player1 player2 gameText) schedule
      let log := [Event.write true message, Event.write false message] ++ sys.log
      if sys.pc1 = LoopPC.returned ∧ sys.pc2 = LoopPC.returned then
        let h1 := h.store player1 { h player1 with State := ClientState.StateWaiting }
        let h2 := h1.store player2 { h1 player2 with State := ClientState.StateWaiting }
        StartOutcome.finished h2 log
      else
        StartOutcome.waiting h log

/-- The client objects after a call of `StartGame`. -/
def StartOutcome.heapAfter {F : Type} : StartOutcome F → Heap
  | StartOutcome.failed _ h _ => h
  | StartOutcome.waiting h _ => h
  | StartOutcome.finished h _ => h

/-- Whether `StartGame` returned an error. -/
def StartOutcome.isError {F : Type} : StartOutcome F → Bool
  | StartOutcome.failed _ _ _ => true
  | _ => false

/-- Whether `StartGame` returned `nil`. -/
def StartOutcome.isNil {F : Type} : StartOutcome F → Bool
  | StartOutcome.finished _ _ => true
  | _ => false

/-! ## The session lock in the log -/

/-- Whether `s.mu` is held after the events, given whether it was before. -/
def lockHeldAfter {F : Type} : Bool → List (Event F) → Bool
  | held, [] => held
  | _, Event.lock :: es => lockHeldAfter true es
  | _, Event.unlock :: es => lockHeldAfter false es
  | held, Event.write _ _ :: es => lockHeldAfter held es

/-- The messages written while `s.mu` is held. -/
def writesUnderLock {F : Type} : Bool → List (Event F) → List (ServerMsg F)
  | _, [] => []
  | _, Event.lock :: es => writesUnderLock true es
  | _, Event.unlock :: es => writesUnderLock false es
  | held, Event.write _ m :: es =>
    if held then m :: writesUnderLock held es else writesUnderLock held es

/-- The messages written while `s.mu` is free. -/
def writesOutsideLock {F : Type} : Bool → List (Event F) → List (ServerMsg F)
  | _, [] => []
  | _, Event.lock :: es => writesOutsideLock true es
  | _, Event.unlock :: es => writesOutsideLock false es
  | held, Event.write _ m :: es =>
    if held then writesOutsideLock held es else m :: writesOutsideLock held es

/-- Whether a message is a `game_over`. -/
def ServerMsg.isGameOver {F : Type} : ServerMsg F → Bool
  | ServerMsg.gameOver _ _ _ => true
  | _ => false

/-! ## Observations on the log -/

/-- The messages written to one player, in order. -/
def outbox {F : Type} (toPlayer1 : Bool) (log : List (Event F)) : List (ServerMsg F) :=
  log.filterMap fun e =>
    match e with
    | Event.write b m => if b = toPlayer1 then some m else none
    | _ => none

/-- The `game_over` writes of the log with their recipients, in order. -/
def gameOverWrites {F : Type} (log : List (Event F)) : List (Bool × ServerMsg F) :=
  log.filterMap fun e =>
    match e with
    | Event.write b (ServerMsg.gameOver r x y) => some (b, ServerMsg.gameOver r x y)
    | _ => none

/-- The recipients of the `opponent_disconnected` writes of the log, in order. -/
def disconnectNotices {F : Type} (log : List (Event F)) : List Bool :=
  log.filterMap fun e =>
    match e with
    | Event.write b ServerMsg.opponentDisconnected => some b
    | _ => none

/-- The recipients of the `opponent_wpm` writes of the log with the value. -/
def wpmRelays {F : Type} (log : List (Event F)) : List (Bool × F) :=
  log.filterMap fun e =>
    match e with
    | Event.write b (ServerMsg.opponentWpm w) => some (b, w)
    | _ => none

/-! ## Phases of a session -/

/-- No resolution has happened: the flag is unset, both loops are still
looping, and nothing about an outcome has been written. -/
def Undecided {F : Type} (sys : Sys F) : Prop :=
  sys.session.gameOver = false ∧
  (sys.pc1 = LoopPC.atCheck ∨ sys.pc1 = LoopPC.atRead) ∧
  (sys.pc2 = LoopPC.atCheck ∨ sys.pc2 = LoopPC.atRead) ∧
  gameOverWrites sys.log = [] ∧ disconnectNotices sys.log = []

/-- Loop `b` has set the flag and is about to call `endGame`. -/
def Pending {F : Type} (sys : Sys F) (b : Bool) : Prop :=
  sys.session.gameOver = true ∧
  sys.pc b = LoopPC.atEndGame ∧ sys.pc (!b) ≠ LoopPC.atEndGame ∧
  gameOverWrites sys.log = [] ∧ disconnectNotices sys.log = []

/-- Player `b` has won: `endGame` has written its pair of messages. -/
def Won {F : Type} (sys : Sys F) (b : Bool) (x y : F) : Prop :=
  sys.session.gameOver = true ∧
  sys.pc1 ≠ LoopPC.atEndGame ∧ sys.pc2 ≠ LoopPC.atEndGame ∧
  gameOverWrites sys.log =
    [(b, ServerMsg.gameOver GameResult.win x y),
     (!b, ServerMsg.gameOver GameResult.lose y x)] ∧
  disconnectNotices sys.log = []

/-- The session ended by a disconnect; player `b` was sent the notice. -/
def Forfeit {F : Type} (sys : Sys F) (b : Bool) : Prop :=
  sys.session.gameOver = true ∧
  sys.pc1 ≠ LoopPC.atEndGame ∧ sys.pc2 ≠ LoopPC.atEndGame ∧
  gameOverWrites sys.log = [] ∧ disconnectNotices sys.log = [b]

/-- The states a session can be in: undecided, decided with `endGame` still to
run, won, or ended by a disconnect. -/
def Inv {F : Type} (sys : Sys F) : Prop :=
  Undecided sys ∨ (∃ b, Pending sys b) ∨ (∃ b x y, Won sys b x y) ∨ (∃ b, Forfeit sys b)

/-- Whether a message is an `opponent_disconnected`. -/
def ServerMsg.isDisconnected {F : Type} : ServerMsg F → Bool
  | ServerMsg.opponentDisconnected => true
  | _ => false

/-- A stretch of events that starts and ends with the lock free, writes only
`game_over` messages while the lock is free and only other messages while it
is held. -/
def LockDiscipline {F : Type} (evs : List (Event F)) : Prop :=
  lockHeldAfter false evs = false ∧
  (∀ m ∈ writesOutsideLock false evs, m.isGameOver = true) ∧
  (∀ m ∈ writesUnderLock false evs, m.isGameOver = false)

/-! ## Concrete inputs -/

/-- A passage of 50 bytes. -/
def passage50 : String := "the quick brown fox jumps over the lazy dog again."

/-- The `float64` that `encoding/json` decodes from the JSON number `1e30`. -/
def report1e30 : Int := 1000000000000000019884624838656

/-- A passage of 11 characters that takes 13 bytes. -/
def accentedPassage : String := "héllo wörld"

/-- A client object with the given identity and state. -/
def sampleClient (id : String) (state : ClientState) : Client :=
  { name := "player", Id := id, Conn := 0, wpm := 0, Opponents := [], State := state }

/-- Three waiting clients `a`, `b`, `c` at the pointers 1, 2, 3. -/
def sampleHeap : Heap := fun p =>
  if p = 1 then sampleClient "a" ClientState.StateWaiting
  else if p = 2 then sampleClient "b" ClientState.StateWaiting
  else if p = 3 then sampleClient "c" ClientState.StateWaiting
  else sampleClient "" ClientState.StateDone

/-- The pool of `a` and `b`. -/
def samplePool2 : Pool := [("a", 1), ("b", 2)]

/-- The pool of `a`, `b` and `c`, visited in this order. -/
def samplePool3 : Pool := [("a", 1), ("b", 2), ("c", 3)]

/-- The pool of `a`, `b` and `c`, visited in another order. -/
def samplePool3Rotated : Pool := [("c", 3), ("a", 1), ("b", 2)]

/-! ## Basic facts -/

section Basics

variable {F : Type}

theorem outbox_append (p : Bool) (l1 l2 : List (Event F)) :
    outbox p (l1 ++ l2) = outbox p l1 ++ outbox p l2 := by
  simp [outbox, List.filterMap_append]

theorem gameOverWrites_append (l1 l2 : List (Event F)) :
    gameOverWrites (l1 ++ l2) = gameOverWrites l1 ++ gameOverWrites l2 := by
  simp [gameOverWrites, List.filterMap_append]

theorem disconnectNotices_append (l1 l2 : List (Event F)) :
    disconnectNotices (l1 ++ l2) = disconnectNotices l1 ++ disconnectNotices l2 := by
  simp [disconnectNotices, List.filterMap_append]

theorem wpmRelays_append (l1 l2 : List (Event F)) :
    wpmRelays (l1 ++ l2) = wpmRelays l1 ++ wpmRelays l2 := by
  simp [wpmRelays, List.filterMap_append]

@[simp]
theorem setPC_session (sys : Sys F) (b : Bool) (v : LoopPC) :
    (sys.setPC b v).session = sys.session := by
  cases b <;> rfl

@[simp]
theorem setPC_log (sys : Sys F) (b : Bool) (v : LoopPC) :
    (sys.setPC b v).log = sys.log := by
  cases b <;> rfl

@[simp]
theorem pc_setPC_same (sys : Sys F) (b : Bool) (v : LoopPC) :
    (sys.setPC b v).pc b = v := by
  cases b <;> rfl

@[simp]
theorem pc_setPC_other (sys : Sys F) (b : Bool) (v : LoopPC) :
    (sys.setPC b v).pc (!b) = sys.pc (!b) := by
  cases b <;> rfl

theorem progressOf_valid (fields : List (String × JSONValue F)) (c w : F)
    (htype : fields.lookup "type" = some (JSONValue.string "progress"))
    (hc : fields.lookup "characters_typed" = some (JSONValue.number c))
    (hw : fields.lookup "wpm" = some (JSONValue.number w)) :
    progressOf (some fields) = some (c, w) := by
  simp [progressOf, htype, hc, hw]

theorem progressFields_lookup (c w : F) :
    (progressFields c w).lookup "type" = some (JSONValue.string "progress") ∧
    (progressFields c w).lookup "characters_typed" = some (JSONValue.number c) ∧
    (progressFields c w).lookup "wpm" = some (JSONValue.number w) := by
  refine ⟨?_, ?_, ?_⟩ <;> simp [progressFields, List.lookup]

variable [Float64 F]

theorem progressSection_session (s : GameSession F) (b : Bool) (c w : F) :
    (progressSection s b c w).1.progressOfPlayer b = Float64.toInt c ∧
    (progressSection s b c w).1.wpmOf b = w ∧
    (progressSection s b c w).1.progressOfPlayer (!b) = s.progressOfPlayer (!b) ∧
    (progressSection s b c w).1.wpmOf (!b) = s.wpmOf (!b) ∧
    (progressSection s b c w).1.gameText = s.gameText := by
  cases b <;> simp [progressSection, GameSession.progressOfPlayer, GameSession.wpmOf] <;>
    split <;> simp

theorem progressSection_log (s : GameSession F) (b : Bool) (c w : F) :
    (progressSection s b c w).2.1 =
      [Event.lock, Event.write (!b) (ServerMsg.opponentWpm w), Event.unlock] := by
  cases b <;> simp [progressSection, broadcastWPM] <;> split <;> simp

theorem progressSection_won (s : GameSession F) (b : Bool) (c w : F) :
    (progressSection s b c w).2.2 =
      decide (s.textLength ≤ Float64.toInt c ∧ s.gameOver = false) := by
  cases b <;> simp [progressSection, GameSession.textLength] <;> split <;> simp_all

theorem progressSection_gameOver (s : GameSession F) (b : Bool) (c w : F) :
    (progressSection s b c w).1.gameOver =
      (s.gameOver || decide (s.textLength ≤ Float64.toInt c)) := by
  cases b <;> simp [progressSection, GameSession.textLength] <;> split <;> simp_all

end Basics

section Frames
variable {F : Type} [Float64 F]

theorem step_recv_message (sys : Sys F) (b : Bool) (parsed : Option (List (String × JSONValue F)))
    (hpc : sys.pc b = LoopPC.atRead) :
    step sys (Step.recv b (ReadResult.message parsed)) =
      match progressOf parsed with
      | none => sys.setPC b LoopPC.atCheck
      | some (c, w) =>
        ({ sys with session := (progressSection sys.session b c w).1,
                    log := sys.log ++
                      [Event.lock, Event.write (!b) (ServerMsg.opponentWpm w), Event.unlock] }).setPC b
          (if sys.session.textLength ≤ Float64.toInt c ∧ sys.session.gameOver = false
            then LoopPC.atEndGame else LoopPC.atCheck) := by
  simp only [step, hpc, if_true]
  cases hp : progressOf parsed with
  | none => rfl
  | some cw =>
    obtain ⟨c, w⟩ := cw
    simp only [progressSection_log, progressSection_won]
    by_cases hw : sys.session.textLength ≤ Float64.toInt c ∧ sys.session.gameOver = false
    · simp [hw]
    · simp [hw]

theorem step_recv_err (sys : Sys F) (b : Bool) (hpc : sys.pc b = LoopPC.atRead) :
    step sys (Step.recv b ReadResult.err) =
      if sys.session.gameOver then
        ({ sys with log := sys.log ++ [Event.lock, Event.unlock] }).setPC b LoopPC.returned
      else
        ({ sys with session := { sys.session with gameOver := true },
                    log := sys.log ++ [Event.lock,
                      Event.write (!b) ServerMsg.opponentDisconnected, Event.unlock] }).setPC b
          LoopPC.returned := by
  simp only [step, hpc, if_true, handleDisconnect]
  split <;> simp_all

theorem step_other_pc (sys : Sys F) (st : Step F) (b : Bool) (h : st.player = !b) :
    (step sys st).pc b = sys.pc b := by
  cases st <;> simp only [Step.player] at h <;> subst h <;> simp only [step] <;>
    repeat (first | rfl | split | (cases b <;> rfl))

theorem step_other_wpm (sys : Sys F) (st : Step F) (b : Bool) (h : st.player = !b) :
    (step sys st).session.wpmOf b = sys.session.wpmOf b := by
  cases st with
  | check p =>
    simp only [step]; split
    · split <;> simp
    · rfl
  | recv p r =>
    simp only [Step.player] at h; subst h
    by_cases hpc : sys.pc (!b) = LoopPC.atRead
    · cases r with
      | err => rw [step_recv_err sys _ hpc]; split <;> simp [GameSession.wpmOf]
      | message parsed =>
        rw [step_recv_message sys _ parsed hpc]
        cases hp : progressOf parsed with
        | none => simp
        | some cw =>
          have := (progressSection_session sys.session (!b) cw.1 cw.2).2.2.2.1
          simpa using this
    · simp [step, hpc]
  | endGame p =>
    simp only [step]; split
    · simp
    · rfl

theorem run_other_pc (mid : List (Step F)) (sys : Sys F) (b : Bool)
    (h : ∀ st ∈ mid, st.player = !b) : (run sys mid).pc b = sys.pc b := by
  induction mid generalizing sys with
  | nil => rfl
  | cons st rest ih =>
    simp only [run, List.foldl_cons]
    have := ih (step sys st) (fun x hx => h x (List.mem_cons_of_mem _ hx))
    simp only [run] at this
    rw [this, step_other_pc sys st b (h st (List.mem_cons_self _ _))]

theorem run_other_wpm (mid : List (Step F)) (sys : Sys F) (b : Bool)
    (h : ∀ st ∈ mid, st.player = !b) :
    (run sys mid).session.wpmOf b = sys.session.wpmOf b := by
  induction mid generalizing sys with
  | nil => rfl
  | cons st rest ih =>
    simp only [run, List.foldl_cons]
    have := ih (step sys st) (fun x hx => h x (List.mem_cons_of_mem _ hx))
    simp only [run] at this
    rw [this, step_other_wpm sys st b (h st (List.mem_cons_self _ _))]

theorem step_endGame_outbox (sys : Sys F) (b : Bool) (hpc : sys.pc b = LoopPC.atEndGame) :
    outbox b (step sys (Step.endGame b)).log =
      outbox b sys.log ++
        [ServerMsg.gameOver GameResult.win (sys.session.wpmOf b) (sys.session.wpmOf (!b))] ∧
    outbox (!b) (step sys (Step.endGame b)).log =
      outbox (!b) sys.log ++
        [ServerMsg.gameOver GameResult.lose (sys.session.wpmOf (!b)) (sys.session.wpmOf b)] := by
  simp only [step, hpc, if_true, setPC_log, outbox_append]
  cases b <;> simp [endGame, outbox, GameSession.wpmOf]

end Frames

section ProgressAndWin
variable {F : Type} [Float64 F]

theorem step_recv_wpm (sys : Sys F) (b : Bool)
    (fields : List (String × JSONValue F)) (c w : F)
    (hpc : sys.pc b = LoopPC.atRead)
    (htype : fields.lookup "type" = some (JSONValue.string "progress"))
    (hc : fields.lookup "characters_typed" = some (JSONValue.number c))
    (hw : fields.lookup "wpm" = some (JSONValue.number w)) :
    (step sys (Step.recv b (ReadResult.message (some fields)))).session.wpmOf b = w := by
  rw [step_recv_message sys b _ hpc, progressOf_valid fields c w htype hc hw]
  simpa using (progressSection_session sys.session b c w).2.1

theorem passage50_scenario (player1 player2 : Ptr) (gameText : String) (c50 w80 : F)
    (hlen50 : gameText.utf8ByteSize = 50) (hc50 : Float64.toInt c50 = 50) :
    outbox true (run (initSys player1 player2 gameText)
        [Step.check true,
         Step.recv true (ReadResult.message (some (progressFields c50 w80))),
         Step.endGame true]).log
      = [ServerMsg.gameOver GameResult.win w80 Float64.zero] ∧
    outbox false (run (initSys player1 player2 gameText)
        [Step.check true,
         Step.recv true (ReadResult.message (some (progressFields c50 w80))),
         Step.endGame true]).log
      = [ServerMsg.opponentWpm w80,
         ServerMsg.gameOver GameResult.lose Float64.zero w80] := by
  obtain ⟨h1, h2, h3⟩ := progressFields_lookup c50 w80
  have hp := progressOf_valid _ c50 w80 h1 h2 h3
  simp [run, step, initSys, newSession, Sys.pc, Sys.setPC, hp, progressSection,
    GameSession.textLength, hlen50, hc50, broadcastWPM, endGame, outbox]

/-- C9: a valid progress message handled by a loop records the reported
characters typed (converted with `int`) and the reported wpm for that player,
leaves the other player's record unchanged, and writes exactly one
`opponent_wpm` with the reported value, to the opponent and not to the sender. -/
theorem progress_recorded_and_relayed (sys : Sys F) (b : Bool)
    (fields : List (String × JSONValue F)) (c w : F)
    (hpc : sys.pc b = LoopPC.atRead)
    (htype : fields.lookup "type" = some (JSONValue.string "progress"))
    (hc : fields.lookup "characters_typed" = some (JSONValue.number c))
    (hw : fields.lookup "wpm" = some (JSONValue.number w)) :
    (step sys (Step.recv b (ReadResult.message (some fields)))).session.progressOfPlayer b
        = Float64.toInt c ∧
    (step sys (Step.recv b (ReadResult.message (some fields)))).session.wpmOf b = w ∧
    (step sys (Step.recv b (ReadResult.message (some fields)))).session.progressOfPlayer (!b)
        = sys.session.progressOfPlayer (!b) ∧
    (step sys (Step.recv b (ReadResult.message (some fields)))).session.wpmOf (!b)
        = sys.session.wpmOf (!b) ∧
    wpmRelays (step sys (Step.recv b (ReadResult.message (some fields)))).log
        = wpmRelays sys.log ++ [(!b, w)] ∧
    outbox (!b) (step sys (Step.recv b (ReadResult.message (some fields)))).log
        = outbox (!b) sys.log ++ [ServerMsg.opponentWpm w] ∧
    outbox b (step sys (Step.recv b (ReadResult.message (some fields)))).log
        = outbox b sys.log := by
  rw [step_recv_message sys b _ hpc, progressOf_valid fields c w htype hc hw]
  have hs := progressSection_session sys.session b c w
  simp only [setPC_session, setPC_log, wpmRelays_append, outbox_append]
  refine ⟨hs.1, hs.2.1, hs.2.2.1, hs.2.2.2.1, ?_, ?_, ?_⟩
  · simp [wpmRelays]
  · simp [outbox]
  · cases b <;> simp [outbox]

/-- Where the win is awarded: when the converted `int(characters_typed)` of a
valid progress message is at least `len(s.gameText)` while the outcome is
undecided, the loop goes on to `endGame`, and
whatever the other loop does in between, `endGame` writes to that player
`game_over` win with its own reported wpm and the opponent's recorded wpm, and
to the opponent the mirrored `game_over` lose. With a passage of 50 bytes,
player 1 reporting 50 characters at wpm `w` before player 2 reports anything
receives win/`w`/0 and player 2 receives lose/0/`w`. -/
theorem win_by_completion_messages (sys : Sys F) (b : Bool)
    (fields : List (String × JSONValue F)) (c w : F) (mid : List (Step F))
    (hpc : sys.pc b = LoopPC.atRead)
    (hundecided : sys.session.gameOver = false)
    (htype : fields.lookup "type" = some (JSONValue.string "progress"))
    (hc : fields.lookup "characters_typed" = some (JSONValue.number c))
    (hw : fields.lookup "wpm" = some (JSONValue.number w))
    (hlen : sys.session.textLength ≤ Float64.toInt c)
    (hmid : ∀ st ∈ mid, st.player = !b) :
    (step sys (Step.recv b (ReadResult.message (some fields)))).pc b = LoopPC.atEndGame ∧
    (step sys (Step.recv b (ReadResult.message (some fields)))).session.gameOver = true ∧
    outbox b (step (run (step sys (Step.recv b (ReadResult.message (some fields)))) mid)
        (Step.endGame b)).log
      = outbox b (run (step sys (Step.recv b (ReadResult.message (some fields)))) mid).log ++
        [ServerMsg.gameOver GameResult.win w
          ((run (step sys (Step.recv b (ReadResult.message (some fields)))) mid).session.wpmOf
            (!b))] ∧
    outbox (!b) (step (run (step sys (Step.recv b (ReadResult.message (some fields)))) mid)
        (Step.endGame b)).log
      = outbox (!b) (run (step sys (Step.recv b (ReadResult.message (some fields)))) mid).log ++
        [ServerMsg.gameOver GameResult.lose
          ((run (step sys (Step.recv b (ReadResult.message (some fields)))) mid).session.wpmOf
            (!b)) w] ∧
    (∀ (player1 player2 : Ptr) (gameText : String) (c50 w80 : F),
      gameText.utf8ByteSize = 50 → Float64.toInt c50 = 50 →
      outbox true (run (initSys player1 player2 gameText)
          [Step.check true,
           Step.recv true (ReadResult.message (some (progressFields c50 w80))),
           Step.endGame true]).log
        = [ServerMsg.gameOver GameResult.win w80 Float64.zero] ∧
      outbox false (run (initSys player1 player2 gameText)
          [Step.check true,
           Step.recv true (ReadResult.message (some (progressFields c50 w80))),
           Step.endGame true]).log
        = [ServerMsg.opponentWpm w80,
           ServerMsg.gameOver GameResult.lose Float64.zero w80]) := by
  have h1 : (step sys (Step.recv b (ReadResult.message (some fields)))).pc b
      = LoopPC.atEndGame := by
    rw [step_recv_message sys b _ hpc, progressOf_valid fields c w htype hc hw]
    simp [hlen, hundecided]
  have h1w : (step sys (Step.recv b (ReadResult.message (some fields)))).session.wpmOf b
      = w := (step_recv_wpm sys b fields c w hpc htype hc hw)
  have h2 := run_other_pc mid (step sys (Step.recv b (ReadResult.message (some fields)))) b hmid
  have h2w := run_other_wpm mid (step sys (Step.recv b (ReadResult.message (some fields)))) b hmid
  have h3 := step_endGame_outbox
    (run (step sys (Step.recv b (ReadResult.message (some fields)))) mid) b (h2.trans h1)
  rw [h2w, h1w] at h3
  refine ⟨h1, ?_, h3.1, h3.2, ?_⟩
  · rw [step_recv_message sys b _ hpc, progressOf_valid fields c w htype hc hw]
    simp [progressSection_gameOver, hlen, hundecided]
  · exact fun player1 player2 gameText c50 w80 hlen50 hc50 =>
      passage50_scenario player1 player2 gameText c50 w80 hlen50 hc50

end ProgressAndWin

section ForfeitPhase
variable {F : Type} [Float64 F]

theorem step_forfeit (sys : Sys F) (st : Step F) (b : Bool) (h : Forfeit sys b) :
    Forfeit (step sys st) b := by
  obtain ⟨hg, h1, h2, hw, hd⟩ := h
  cases st with
  | check p =>
    cases p <;>
      simp [Forfeit, step, Sys.pc, Sys.setPC, hg, gameOverWrites_append,
        disconnectNotices_append, hw, hd] <;>
      split <;> simp_all [gameOverWrites, disconnectNotices]
  | recv p r =>
    by_cases hpc : sys.pc p = LoopPC.atRead
    · cases r with
      | err =>
        rw [step_recv_err sys p hpc]
        cases p <;>
          simp_all [Forfeit, Sys.pc, Sys.setPC, gameOverWrites_append,
            disconnectNotices_append, gameOverWrites, disconnectNotices]
      | message parsed =>
        rw [step_recv_message sys p parsed hpc]
        cases hp : progressOf parsed with
        | none => cases p <;> simp_all [Forfeit, Sys.pc, Sys.setPC]
        | some cw =>
          cases p <;>
            simp_all [Forfeit, Sys.pc, Sys.setPC, gameOverWrites_append,
              disconnectNotices_append, gameOverWrites, disconnectNotices,
              progressSection_gameOver]
    · simp only [step, hpc, if_false]; exact ⟨hg, h1, h2, hw, hd⟩
  | endGame p =>
    have : sys.pc p ≠ LoopPC.atEndGame := by cases p <;> simpa [Sys.pc]
    simp only [step, this, if_false]; exact ⟨hg, h1, h2, hw, hd⟩

end ForfeitPhase

section PhaseSteps
variable {F : Type} [Float64 F]

theorem step_won (sys : Sys F) (st : Step F) (b : Bool) (x y : F) (h : Won sys b x y) :
    Won (step sys st) b x y := by
  obtain ⟨hg, h1, h2, hw, hd⟩ := h
  cases st with
  | check p =>
    cases p <;>
      simp [Won, step, Sys.pc, Sys.setPC, hg, gameOverWrites_append,
        disconnectNotices_append, hw, hd] <;>
      split <;> simp_all [gameOverWrites, disconnectNotices]
  | recv p r =>
    by_cases hpc : sys.pc p = LoopPC.atRead
    · cases r with
      | err =>
        rw [step_recv_err sys p hpc]
        cases p <;>
          simp_all [Won, Sys.pc, Sys.setPC, gameOverWrites_append,
            disconnectNotices_append, gameOverWrites, disconnectNotices]
      | message parsed =>
        rw [step_recv_message sys p parsed hpc]
        cases hp : progressOf parsed with
        | none => cases p <;> simp_all [Won, Sys.pc, Sys.setPC]
        | some cw =>
          cases p <;>
            simp_all [Won, Sys.pc, Sys.setPC, gameOverWrites_append,
              disconnectNotices_append, gameOverWrites, disconnectNotices,
              progressSection_gameOver]
    · simp only [step, hpc, if_false]; exact ⟨hg, h1, h2, hw, hd⟩
  | endGame p =>
    have : sys.pc p ≠ LoopPC.atEndGame := by cases p <;> simpa [Sys.pc]
    simp only [step, this, if_false]; exact ⟨hg, h1, h2, hw, hd⟩

theorem step_pending (sys : Sys F) (st : Step F) (b : Bool) (h : Pending sys b) :
    (Pending (step sys st) b ∧ (step sys st).session.wpmOf b = sys.session.wpmOf b) ∨
      Won (step sys st) b (sys.session.wpmOf b) (sys.session.wpmOf (!b)) := by
  obtain ⟨hg, h1, h2, hw, hd⟩ := h
  by_cases hp : st.player = !b
  · left
    refine ⟨?_, step_other_wpm sys st b hp⟩
    cases st with
    | check p =>
      simp only [Step.player] at hp; subst hp
      cases b <;>
        simp_all [Pending, step, Sys.pc, Sys.setPC, gameOverWrites_append,
          disconnectNotices_append] <;>
        (try split) <;> simp_all [gameOverWrites, disconnectNotices]
    | recv p r =>
      simp only [Step.player] at hp; subst hp
      by_cases hpc : sys.pc (!b) = LoopPC.atRead
      · cases r with
        | err =>
          rw [step_recv_err sys _ hpc]
          cases b <;>
            simp_all [Pending, Sys.pc, Sys.setPC, gameOverWrites_append,
              disconnectNotices_append, gameOverWrites, disconnectNotices]
        | message parsed =>
          rw [step_recv_message sys _ parsed hpc]
          cases hp : progressOf parsed with
          | none => cases b <;> simp_all [Pending, Sys.pc, Sys.setPC]
          | some cw =>
            cases b <;>
              simp_all [Pending, Sys.pc, Sys.setPC, gameOverWrites_append,
                disconnectNotices_append, gameOverWrites, disconnectNotices,
                progressSection_gameOver]
      · simp only [step, hpc, if_false]; exact ⟨hg, h1, h2, hw, hd⟩
    | endGame p =>
      simp only [Step.player] at hp; subst hp
      simp only [step, h2, if_false]; exact ⟨hg, h1, h2, hw, hd⟩
  · have hp' : st.player = b := by
      cases hb : st.player <;> cases b <;> simp_all
    cases st with
    | check p =>
      simp only [Step.player] at hp'; subst hp'
      left
      have : sys.pc p ≠ LoopPC.atCheck := by rw [h1]; simp
      simp only [step, this, if_false]; exact ⟨⟨hg, h1, h2, hw, hd⟩, trivial⟩
    | recv p r =>
      simp only [Step.player] at hp'; subst hp'
      left
      have : sys.pc p ≠ LoopPC.atRead := by rw [h1]; simp
      simp only [step, this, if_false]; exact ⟨⟨hg, h1, h2, hw, hd⟩, trivial⟩
    | endGame p =>
      simp only [Step.player] at hp'; subst hp'
      right
      cases p <;>
        simp_all [Won, step, Sys.pc, Sys.setPC, gameOverWrites_append,
          disconnectNotices_append, gameOverWrites, disconnectNotices, endGame,
          GameSession.wpmOf]

theorem step_undecided (sys : Sys F) (st : Step F) (h : Undecided sys) :
    Undecided (step sys st) ∨ Pending (step sys st) st.player ∨
      Forfeit (step sys st) (!st.player) := by
  obtain ⟨hg, h1, h2, hw, hd⟩ := h
  have e1 : sys.pc1 ≠ LoopPC.atEndGame := by rcases h1 with h | h <;> simp [h]
  have e2 : sys.pc2 ≠ LoopPC.atEndGame := by rcases h2 with h | h <;> simp [h]
  cases st with
  | check p =>
    left
    cases p <;>
      simp [Undecided, step, Sys.pc, Sys.setPC, hg, gameOverWrites_append,
        disconnectNotices_append, hw, hd] <;>
      split <;> simp_all [gameOverWrites, disconnectNotices]
  | recv p r =>
    by_cases hpc : sys.pc p = LoopPC.atRead
    · cases r with
      | err =>
        right; right
        rw [step_recv_err sys p hpc]
        cases p <;>
          simp_all [Forfeit, Step.player, Sys.pc, Sys.setPC, gameOverWrites_append,
            disconnectNotices_append, gameOverWrites, disconnectNotices]
      | message parsed =>
        rw [step_recv_message sys p parsed hpc]
        cases hp : progressOf parsed with
        | none =>
          left
          cases p <;> simp_all [Undecided, Sys.pc, Sys.setPC]
        | some cw =>
          by_cases hlen : sys.session.textLength ≤ Float64.toInt cw.1
          · right; left
            cases p <;>
              simp_all [Pending, Step.player, Sys.pc, Sys.setPC, gameOverWrites_append,
                disconnectNotices_append, gameOverWrites, disconnectNotices,
                progressSection_gameOver]
          · left
            cases p <;>
              simp_all [Undecided, Sys.pc, Sys.setPC, gameOverWrites_append,
                disconnectNotices_append, gameOverWrites, disconnectNotices,
                progressSection_gameOver]
    · left; simp only [step, hpc, if_false]; exact ⟨hg, h1, h2, hw, hd⟩
  | endGame p =>
    left
    have : sys.pc p ≠ LoopPC.atEndGame := by cases p <;> simpa [Sys.pc]
    simp only [step, this, if_false]; exact ⟨hg, h1, h2, hw, hd⟩

end PhaseSteps

section Runs
variable {F : Type}

theorem no_gameOver_in_outbox_single (e : Event F) (h : gameOverWrites [e] = [])
    (p : Bool) : ∀ m ∈ outbox p [e], m.isGameOver = false := by
  cases e with
  | lock => simp [outbox]
  | unlock => simp [outbox]
  | write q msg =>
    cases msg <;> cases q <;> cases p <;>
      simp_all [outbox, gameOverWrites, ServerMsg.isGameOver]

theorem no_gameOver_in_outbox (log : List (Event F)) (h : gameOverWrites log = [])
    (p : Bool) : ∀ m ∈ outbox p log, m.isGameOver = false := by
  induction log with
  | nil => simp [outbox]
  | cons e es ih =>
    have hsplit : e :: es = [e] ++ es := rfl
    rw [hsplit, gameOverWrites_append, List.append_eq_nil] at h
    rw [hsplit, outbox_append]
    intro m hm
    rcases List.mem_append.mp hm with hm | hm
    · exact no_gameOver_in_outbox_single e h.1 p m hm
    · exact ih h.2 m hm

theorem countP_disconnected_outbox (log : List (Event F)) (p : Bool) :
    (outbox p log).countP ServerMsg.isDisconnected = (disconnectNotices log).count p := by
  induction log with
  | nil => simp [outbox, disconnectNotices]
  | cons e es ih =>
    have ih' : List.countP ServerMsg.isDisconnected
        (List.filterMap (fun e => match e with
          | Event.write b m => if b = p then some m else none
          | _ => none) es) =
        List.count p (List.filterMap (fun e => match e with
          | Event.write b ServerMsg.opponentDisconnected => some b
          | _ => none) es) := ih
    cases e with
    | lock => simpa [outbox, disconnectNotices] using ih
    | unlock => simpa [outbox, disconnectNotices] using ih
    | write q msg =>
      cases msg <;> cases q <;> cases p <;>
        simp [outbox, disconnectNotices, List.filterMap_cons, ServerMsg.isDisconnected,
          List.countP_cons, List.count_cons, ih']

theorem inv_undecided (sys : Sys F) (h : Inv sys) (hg : sys.session.gameOver = false) :
    Undecided sys := by
  rcases h with h | ⟨b, h⟩ | ⟨b, x, y, h⟩ | ⟨b, h⟩
  · exact h
  · exact absurd h.1 (by simp [hg])
  · exact absurd h.1 (by simp [hg])
  · exact absurd h.1 (by simp [hg])

variable [Float64 F]

theorem init_undecided (player1 player2 : Ptr) (gameText : String) :
    Undecided (initSys player1 player2 gameText : Sys F) := by
  simp [Undecided, initSys, newSession, gameOverWrites, disconnectNotices]

theorem step_inv (sys : Sys F) (st : Step F) (h : Inv sys) : Inv (step sys st) := by
  rcases h with h | ⟨b, h⟩ | ⟨b, x, y, h⟩ | ⟨b, h⟩
  · rcases step_undecided sys st h with h | h | h
    · exact Or.inl h
    · exact Or.inr (Or.inl ⟨_, h⟩)
    · exact Or.inr (Or.inr (Or.inr ⟨_, h⟩))
  · rcases step_pending sys st b h with h | h
    · exact Or.inr (Or.inl ⟨_, h.1⟩)
    · exact Or.inr (Or.inr (Or.inl ⟨_, _, _, h⟩))
  · exact Or.inr (Or.inr (Or.inl ⟨_, _, _, step_won sys st b x y h⟩))
  · exact Or.inr (Or.inr (Or.inr ⟨_, step_forfeit sys st b h⟩))

theorem run_append (sys : Sys F) (l1 l2 : List (Step F)) :
    run sys (l1 ++ l2) = run (run sys l1) l2 := by
  simp [run, List.foldl_append]

theorem run_cons (sys : Sys F) (st : Step F) (l : List (Step F)) :
    run sys (st :: l) = run (step sys st) l := rfl

theorem run_inv (l : List (Step F)) (sys : Sys F) (h : Inv sys) : Inv (run sys l) := by
  induction l generalizing sys with
  | nil => exact h
  | cons st rest ih => exact ih _ (step_inv sys st h)

theorem run_forfeit (l : List (Step F)) (sys : Sys F) (b : Bool) (h : Forfeit sys b) :
    Forfeit (run sys l) b := by
  induction l generalizing sys with
  | nil => exact h
  | cons st rest ih => exact ih _ (step_forfeit sys st b h)

theorem run_won (l : List (Step F)) (sys : Sys F) (b : Bool) (x y : F) (h : Won sys b x y) :
    Won (run sys l) b x y := by
  induction l generalizing sys with
  | nil => exact h
  | cons st rest ih => exact ih _ (step_won sys st b x y h)

theorem run_pending (l : List (Step F)) (sys : Sys F) (b : Bool) (h : Pending sys b) :
    Pending (run sys l) b ∨ ∃ y, Won (run sys l) b (sys.session.wpmOf b) y := by
  induction l generalizing sys with
  | nil => exact Or.inl h
  | cons st rest ih =>
    rw [run_cons]
    rcases step_pending sys st b h with ⟨h1, hw⟩ | h1
    · rw [← hw]; exact ih _ h1
    · exact Or.inr ⟨_, run_won rest _ b _ _ h1⟩

theorem step_gameOver_mono (sys : Sys F) (st : Step F) (h : sys.session.gameOver = true) :
    (step sys st).session.gameOver = true := by
  cases st with
  | check p =>
    simp only [step]; split
    · simp [h]
    · exact h
  | recv p r =>
    by_cases hpc : sys.pc p = LoopPC.atRead
    · cases r with
      | err => rw [step_recv_err sys p hpc]; simp [h]
      | message parsed =>
        rw [step_recv_message sys p parsed hpc]
        cases hp : progressOf parsed with
        | none => simpa
        | some cw => simp [progressSection_gameOver, h]
    · simp only [step, hpc, if_false]; exact h
  | endGame p => simp only [step]; split <;> simpa

theorem run_gameOver_mono (l : List (Step F)) (sys : Sys F)
    (h : sys.session.gameOver = true) : (run sys l).session.gameOver = true := by
  induction l generalizing sys with
  | nil => exact h
  | cons st rest ih => exact ih _ (step_gameOver_mono sys st h)

end Runs

section Resolution
variable {F : Type} [Float64 F]

/-- C1: in every interleaving of the two loops of a session, `gameOver` is
never reset once set; the outcome writes in the log are either none, or one
win/lose pair of `game_over` messages (win to one player, the mirrored lose to
the other) and no disconnect notice, or one disconnect notice and no
`game_over`; once both loops have returned exactly one of the two has
happened; and after a player's progress message that reaches the passage
length is handled while the outcome is undecided, whatever both loops do
afterwards (the other player reaching the length included) the only
`game_over` messages ever written are the single pair that names that player
the winner. -/
theorem outcome_resolved_at_most_once (player1 player2 : Ptr) (gameText : String)
    (pre post : List (Step F)) :
    ((run (initSys player1 player2 gameText) pre).session.gameOver = true →
      (run (run (initSys player1 player2 gameText) pre) post).session.gameOver = true) ∧
    ((gameOverWrites (run (initSys player1 player2 gameText) pre).log = [] ∧
        disconnectNotices (run (initSys player1 player2 gameText) pre).log = []) ∨
      (∃ b x y, gameOverWrites (run (initSys player1 player2 gameText) pre).log =
          [(b, ServerMsg.gameOver GameResult.win x y),
           (!b, ServerMsg.gameOver GameResult.lose y x)] ∧
        disconnectNotices (run (initSys player1 player2 gameText) pre).log = []) ∨
      (∃ b, gameOverWrites (run (initSys player1 player2 gameText) pre).log = [] ∧
        disconnectNotices (run (initSys player1 player2 gameText) pre).log = [b])) ∧
    ((run (initSys player1 player2 gameText) pre).pc1 = LoopPC.returned →
      (run (initSys player1 player2 gameText) pre).pc2 = LoopPC.returned →
      ((∃ b x y, gameOverWrites (run (initSys player1 player2 gameText) pre).log =
          [(b, ServerMsg.gameOver GameResult.win x y),
           (!b, ServerMsg.gameOver GameResult.lose y x)] ∧
        disconnectNotices (run (initSys player1 player2 gameText) pre).log = []) ∨
      (∃ b, gameOverWrites (run (initSys player1 player2 gameText) pre).log = [] ∧
        disconnectNotices (run (initSys player1 player2 gameText) pre).log = [b]))) ∧
    (∀ (b : Bool) (c w : F),
      (run (initSys player1 player2 gameText) pre).session.gameOver = false →
      (run (initSys player1 player2 gameText) pre).pc b = LoopPC.atRead →
      (run (initSys player1 player2 gameText) pre).session.textLength ≤ Float64.toInt c →
      disconnectNotices (run (step (run (initSys player1 player2 gameText) pre)
          (Step.recv b (ReadResult.message (some (progressFields c w))))) post).log = [] ∧
      (gameOverWrites (run (step (run (initSys player1 player2 gameText) pre)
          (Step.recv b (ReadResult.message (some (progressFields c w))))) post).log = [] ∨
        ∃ y, gameOverWrites (run (step (run (initSys player1 player2 gameText) pre)
          (Step.recv b (ReadResult.message (some (progressFields c w))))) post).log =
            [(b, ServerMsg.gameOver GameResult.win w y),
             (!b, ServerMsg.gameOver GameResult.lose y w)]) ∧
      ((run (step (run (initSys player1 player2 gameText) pre)
          (Step.recv b (ReadResult.message (some (progressFields c w))))) post).pc b
            = LoopPC.returned →
        ∃ y, gameOverWrites (run (step (run (initSys player1 player2 gameText) pre)
          (Step.recv b (ReadResult.message (some (progressFields c w))))) post).log =
            [(b, ServerMsg.gameOver GameResult.win w y),
             (!b, ServerMsg.gameOver GameResult.lose y w)])) := by
  have hinv : Inv (run (initSys player1 player2 gameText : Sys F) pre) :=
    run_inv pre _ (Or.inl (init_undecided player1 player2 gameText))
  generalize run (initSys player1 player2 gameText : Sys F) pre = s1 at hinv ⊢
  refine ⟨run_gameOver_mono post s1, ?_, ?_, ?_⟩
  · rcases hinv with h | ⟨b, h⟩ | ⟨b, x, y, h⟩ | ⟨b, h⟩
    · exact Or.inl ⟨h.2.2.2.1, h.2.2.2.2⟩
    · exact Or.inl ⟨h.2.2.2.1, h.2.2.2.2⟩
    · exact Or.inr (Or.inl ⟨b, x, y, h.2.2.2.1, h.2.2.2.2⟩)
    · exact Or.inr (Or.inr ⟨b, h.2.2.2.1, h.2.2.2.2⟩)
  · intro hr1 hr2
    rcases hinv with h | ⟨b, h⟩ | ⟨b, x, y, h⟩ | ⟨b, h⟩
    · rcases h.2.1 with h1 | h1 <;> simp [h1] at hr1
    · have := h.2.1
      cases b <;> simp_all [Sys.pc]
    · exact Or.inl ⟨b, x, y, h.2.2.2.1, h.2.2.2.2⟩
    · exact Or.inr ⟨b, h.2.2.2.1, h.2.2.2.2⟩
  · intro b c w hg hpc hlen
    have hu := inv_undecided s1 hinv hg
    obtain ⟨l1, l2, l3⟩ := progressFields_lookup c w
    have hw := step_recv_wpm s1 b _ c w hpc l1 l2 l3
    have hpend : Pending (step s1 (Step.recv b (ReadResult.message
        (some (progressFields c w))))) b := by
      rcases step_undecided s1 (Step.recv b (ReadResult.message
        (some (progressFields c w)))) hu with h | h | h
      · have hgo : (step s1 (Step.recv b (ReadResult.message
            (some (progressFields c w))))).session.gameOver = true := by
          rw [step_recv_message s1 b _ hpc, progressOf_valid _ c w l1 l2 l3]
          simp [progressSection_gameOver, hlen]
        exact absurd h.1 (by simp [hgo])
      · exact h
      · have hd : disconnectNotices (step s1 (Step.recv b (ReadResult.message
            (some (progressFields c w))))).log = [] := by
          rw [step_recv_message s1 b _ hpc, progressOf_valid _ c w l1 l2 l3]
          simp only [setPC_log, disconnectNotices_append, hu.2.2.2.2]
          simp [disconnectNotices]
        exact absurd h.2.2.2.2 (by simp [hd])
    rcases run_pending post _ b hpend with h | ⟨y, h⟩
    · refine ⟨h.2.2.2.2, Or.inl h.2.2.2.1, ?_⟩
      intro hret
      rw [h.2.1] at hret
      exact absurd hret (by simp)
    · rw [hw] at h
      exact ⟨h.2.2.2.2, Or.inr ⟨y, h.2.2.2.1⟩, fun _ => ⟨y, h.2.2.2.1⟩⟩

/-- C3: a receive failure on a loop while the outcome is undecided writes
exactly one `opponent_disconnected`, to the other player and nothing to the
failing side, and whatever both loops do afterwards that notice stays the only
one and no `game_over` is ever written to either player. -/
theorem disconnect_notifies_opponent_only (player1 player2 : Ptr) (gameText : String)
    (pre post : List (Step F)) (b : Bool)
    (hundecided : (run (initSys player1 player2 gameText) pre).session.gameOver = false)
    (hpc : (run (initSys player1 player2 gameText) pre).pc b = LoopPC.atRead) :
    outbox (!b) (step (run (initSys player1 player2 gameText) pre)
        (Step.recv b ReadResult.err)).log =
      outbox (!b) (run (initSys player1 player2 gameText) pre).log ++
        [ServerMsg.opponentDisconnected] ∧
    outbox b (step (run (initSys player1 player2 gameText) pre)
        (Step.recv b ReadResult.err)).log =
      outbox b (run (initSys player1 player2 gameText) pre).log ∧
    (outbox (!b) (run (step (run (initSys player1 player2 gameText) pre)
        (Step.recv b ReadResult.err)) post).log).countP ServerMsg.isDisconnected = 1 ∧
    (outbox b (run (step (run (initSys player1 player2 gameText) pre)
        (Step.recv b ReadResult.err)) post).log).countP ServerMsg.isDisconnected = 0 ∧
    (∀ p, ∀ m ∈ outbox p (run (step (run (initSys player1 player2 gameText) pre)
        (Step.recv b ReadResult.err)) post).log, m.isGameOver = false) := by
  have hinv : Inv (run (initSys player1 player2 gameText : Sys F) pre) :=
    run_inv pre _ (Or.inl (init_undecided player1 player2 gameText))
  generalize run (initSys player1 player2 gameText : Sys F) pre = s1 at hinv hundecided hpc ⊢
  have hu := inv_undecided s1 hinv hundecided
  have hf : Forfeit (step s1 (Step.recv b ReadResult.err)) (!b) := by
    rcases step_undecided s1 (Step.recv b ReadResult.err) hu with h | h | h
    · have hgo : (step s1 (Step.recv b ReadResult.err)).session.gameOver = true := by
        rw [step_recv_err s1 b hpc]; simp [hundecided]
      exact absurd h.1 (by simp [hgo])
    · have hgo : (step s1 (Step.recv b ReadResult.err)).pc b = LoopPC.returned := by
        rw [step_recv_err s1 b hpc]; simp [hundecided]
      have := h.2.1
      simp only [Step.player] at this
      rw [hgo] at this
      exact absurd this (by simp)
    · exact h
  have hf2 := run_forfeit post _ _ hf
  refine ⟨?_, ?_, ?_, ?_, ?_⟩
  · rw [step_recv_err s1 b hpc]
    simp [hundecided, outbox_append, outbox]
  · rw [step_recv_err s1 b hpc]
    cases b <;> simp [hundecided, outbox_append, outbox]
  · rw [countP_disconnected_outbox, hf2.2.2.2.2]; simp
  · rw [countP_disconnected_outbox, hf2.2.2.2.2]; cases b <;> simp
  · exact fun p => no_gameOver_in_outbox _ hf2.2.2.2.1 p

end Resolution

section Locking
variable {F : Type}

theorem lockHeldAfter_append (l1 l2 : List (Event F)) (held : Bool) :
    lockHeldAfter held (l1 ++ l2) = lockHeldAfter (lockHeldAfter held l1) l2 := by
  induction l1 generalizing held with
  | nil => rfl
  | cons e es ih => cases e <;> simp [lockHeldAfter, ih]

theorem writesUnderLock_append (l1 l2 : List (Event F)) (held : Bool) :
    writesUnderLock held (l1 ++ l2) =
      writesUnderLock held l1 ++ writesUnderLock (lockHeldAfter held l1) l2 := by
  induction l1 generalizing held with
  | nil => rfl
  | cons e es ih =>
    cases e with
    | lock => simp [writesUnderLock, lockHeldAfter, ih]
    | unlock => simp [writesUnderLock, lockHeldAfter, ih]
    | write q m => cases held <;> simp [writesUnderLock, lockHeldAfter, ih]

theorem writesOutsideLock_append (l1 l2 : List (Event F)) (held : Bool) :
    writesOutsideLock held (l1 ++ l2) =
      writesOutsideLock held l1 ++ writesOutsideLock (lockHeldAfter held l1) l2 := by
  induction l1 generalizing held with
  | nil => rfl
  | cons e es ih =>
    cases e with
    | lock => simp [writesOutsideLock, lockHeldAfter, ih]
    | unlock => simp [writesOutsideLock, lockHeldAfter, ih]
    | write q m => cases held <;> simp [writesOutsideLock, lockHeldAfter, ih]

theorem lockDiscipline_append (l1 l2 : List (Event F)) (h1 : LockDiscipline l1)
    (h2 : LockDiscipline l2) : LockDiscipline (l1 ++ l2) := by
  obtain ⟨a1, b1, c1⟩ := h1
  obtain ⟨a2, b2, c2⟩ := h2
  refine ⟨?_, ?_, ?_⟩
  · rw [lockHeldAfter_append, a1, a2]
  · rw [writesOutsideLock_append, a1]
    intro m hm
    rcases List.mem_append.mp hm with hm | hm
    · exact b1 m hm
    · exact b2 m hm
  · rw [writesUnderLock_append, a1]
    intro m hm
    rcases List.mem_append.mp hm with hm | hm
    · exact c1 m hm
    · exact c2 m hm

variable [Float64 F]

theorem step_log (sys : Sys F) (st : Step F) :
    ∃ evs, (step sys st).log = sys.log ++ evs ∧ LockDiscipline evs := by
  have hnil : LockDiscipline ([] : List (Event F)) := by
    simp [LockDiscipline, lockHeldAfter, writesOutsideLock, writesUnderLock]
  cases st with
  | check p =>
    by_cases hpc : sys.pc p = LoopPC.atCheck
    · refine ⟨[Event.lock, Event.unlock], ?_, ?_⟩
      · simp only [step, hpc, if_true]; split <;> simp
      · simp [LockDiscipline, lockHeldAfter, writesOutsideLock, writesUnderLock]
    · exact ⟨[], by simp [step, hpc], hnil⟩
  | recv p r =>
    by_cases hpc : sys.pc p = LoopPC.atRead
    · cases r with
      | err =>
        rw [step_recv_err sys p hpc]
        by_cases hg : sys.session.gameOver = true
        · refine ⟨[Event.lock, Event.unlock], by simp [hg], ?_⟩
          simp [LockDiscipline, lockHeldAfter, writesOutsideLock, writesUnderLock]
        · refine ⟨[Event.lock, Event.write (!p) ServerMsg.opponentDisconnected,
            Event.unlock], by simp [hg], ?_⟩
          simp [LockDiscipline, lockHeldAfter, writesOutsideLock, writesUnderLock,
            ServerMsg.isGameOver]
      | message parsed =>
        rw [step_recv_message sys p parsed hpc]
        cases hp : progressOf parsed with
        | none => exact ⟨[], by simp, hnil⟩
        | some cw =>
          refine ⟨[Event.lock, Event.write (!p) (ServerMsg.opponentWpm cw.2),
            Event.unlock], by simp, ?_⟩
          simp [LockDiscipline, lockHeldAfter, writesOutsideLock, writesUnderLock,
            ServerMsg.isGameOver]
    · exact ⟨[], by simp [step, hpc], hnil⟩
  | endGame p =>
    by_cases hpc : sys.pc p = LoopPC.atEndGame
    · refine ⟨endGame sys.session p, by simp [step, hpc], ?_⟩
      simp [LockDiscipline, endGame, lockHeldAfter, writesOutsideLock, writesUnderLock,
        ServerMsg.isGameOver]
    · exact ⟨[], by simp [step, hpc], hnil⟩

theorem run_log (l : List (Step F)) (sys : Sys F) (h : LockDiscipline sys.log) :
    LockDiscipline (run sys l).log := by
  induction l generalizing sys with
  | nil => exact h
  | cons st rest ih =>
    obtain ⟨evs, he, hd⟩ := step_log sys st
    exact ih (step sys st) (he ▸ lockDiscipline_append _ _ h hd)

/-- C10, as the code has it: in every interleaving of the two loops, each
lock-protected section leaves the lock free; every message written while the
lock is free is a `game_over`, and every message written while the lock is
held is not (it is an `opponent_wpm` relay or an `opponent_disconnected`
notice). -/
theorem only_game_over_written_outside_lock (player1 player2 : Ptr) (gameText : String)
    (l : List (Step F)) :
    lockHeldAfter false (run (initSys player1 player2 gameText) l).log = false ∧
    (∀ m ∈ writesOutsideLock false (run (initSys player1 player2 gameText) l).log,
      m.isGameOver = true) ∧
    (∀ m ∈ writesUnderLock false (run (initSys player1 player2 gameText) l).log,
      m.isGameOver = false) :=
  run_log l (initSys player1 player2 gameText) (by
    simp [LockDiscipline, initSys, lockHeldAfter, writesOutsideLock, writesUnderLock])

end Locking

section Sweeps

theorem pairs_induction {P : Pool → Prop} (hnil : P []) (hone : ∀ a, P [a])
    (hstep : ∀ a b rest, P rest → P (a :: b :: rest)) : ∀ l, P l
  | [] => hnil
  | [a] => hone a
  | a :: b :: rest => hstep a b rest (pairs_induction hnil hone hstep rest)

theorem paired_append_unpaired (w : Pool) : pairedEntries w ++ unpairedEntries w = w := by
  induction w using pairs_induction with
  | hnil => rfl
  | hone a => rfl
  | hstep a b rest ih => simp [pairedEntries, unpairedEntries, ih]

theorem unpaired_length (w : Pool) : (unpairedEntries w).length = w.length % 2 := by
  induction w using pairs_induction with
  | hnil => rfl
  | hone a => rfl
  | hstep a b rest ih =>
    simp only [unpairedEntries, List.length_cons, ih]
    omega

theorem pairUp_length (w : Pool) : (pairUp w).length = w.length / 2 := by
  induction w using pairs_induction with
  | hnil => rfl
  | hone a => simp [pairUp]
  | hstep a b rest ih =>
    simp only [pairUp, List.length_cons, ih]
    omega

theorem pairLoop_started (w : Pool) (st : Sweep) :
    (pairLoop w st).started = st.started ++ pairUp w := by
  induction w using pairs_induction generalizing st with
  | hnil => simp [pairLoop, pairUp]
  | hone a => simp [pairLoop, pairUp]
  | hstep a b rest ih =>
    obtain ⟨ka, pa⟩ := a
    obtain ⟨kb, pb⟩ := b
    simp [pairLoop, pairUp, ih]

theorem pairLoop_clients (w : Pool) (st : Sweep) :
    (pairLoop w st).clients =
      st.clients.filter fun e => decide (e.1 ∉ (pairedEntries w).map Prod.fst) := by
  induction w using pairs_induction generalizing st with
  | hnil => simp [pairLoop, pairedEntries]
  | hone a => simp [pairLoop, pairedEntries]
  | hstep a b rest ih =>
    obtain ⟨ka, pa⟩ := a
    obtain ⟨kb, pb⟩ := b
    simp only [pairLoop, ih, Pool.delete, pairedEntries, List.filter_filter, List.map_cons,
      List.mem_cons, not_or]
    apply List.filter_congr
    intro e _
    simp only [Bool.and_eq_true, decide_eq_true_eq, ne_eq, Bool.decide_and]
    by_cases h1 : e.1 = ka <;> by_cases h2 : e.1 = kb <;> simp [h1, h2]

theorem pairLoop_heap_other (w : Pool) (st : Sweep) (p : Ptr)
    (hp : p ∉ (pairedEntries w).map Prod.snd) : (pairLoop w st).heap p = st.heap p := by
  induction w using pairs_induction generalizing st with
  | hnil => simp [pairLoop]
  | hone a => simp [pairLoop]
  | hstep a b rest ih =>
    obtain ⟨ka, pa⟩ := a
    obtain ⟨kb, pb⟩ := b
    simp only [pairedEntries, List.map_cons, List.mem_cons, not_or] at hp
    obtain ⟨h1, h2, h3⟩ := hp
    simp only [pairLoop]
    rw [ih _ h3]
    simp [Heap.store, h1, h2]

theorem pairedEntries_sublist (w : Pool) : (pairedEntries w).Sublist w := by
  have h : (pairedEntries w).Sublist (pairedEntries w ++ unpairedEntries w) :=
    List.sublist_append_left _ _
  rwa [paired_append_unpaired] at h

theorem pairLoop_heap_pairs (w : Pool) (st : Sweep) (hnd : (w.map Prod.snd).Nodup) :
    ∀ pr ∈ pairUp w,
      pr.1 ≠ pr.2 ∧ pr.1 ∈ w.map Prod.snd ∧ pr.2 ∈ w.map Prod.snd ∧
      pr.1 ∈ (pairedEntries w).map Prod.snd ∧ pr.2 ∈ (pairedEntries w).map Prod.snd ∧
      ((pairLoop w st).heap pr.1).State = ClientState.StatePlaying ∧
      ((pairLoop w st).heap pr.2).State = ClientState.StatePlaying ∧
      ((pairLoop w st).heap pr.1).Opponents = [pr.2] ∧
      ((pairLoop w st).heap pr.2).Opponents = [pr.1] := by
  induction w using pairs_induction generalizing st with
  | hnil => simp [pairUp]
  | hone a => simp [pairUp]
  | hstep a b rest ih =>
    obtain ⟨ka, pa⟩ := a
    obtain ⟨kb, pb⟩ := b
    simp only [List.map_cons, List.nodup_cons, List.mem_cons, not_or] at hnd
    obtain ⟨⟨hab, ha⟩, hb, hrest⟩ := hnd
    intro pr hpr
    simp only [pairUp, List.mem_cons] at hpr
    rcases hpr with rfl | hpr
    · have hsub := (pairedEntries_sublist rest).map Prod.snd
      have ha' : pa ∉ (pairedEntries rest).map Prod.snd := fun h => ha (hsub.subset h)
      have hb' : pb ∉ (pairedEntries rest).map Prod.snd := fun h => hb (hsub.subset h)
      have hba : ¬ pb = pa := fun h => hab h.symm
      simp only [pairLoop]
      rw [pairLoop_heap_other rest _ pa ha', pairLoop_heap_other rest _ pb hb']
      simp [Heap.store, hab, hba, pairedEntries]
    · obtain ⟨h1, h2, h3, h4, h5, h6⟩ := ih _ hrest pr hpr
      refine ⟨h1, ?_, ?_, ?_, ?_, ?_⟩
      · simp [h2]
      · simp [h3]
      · simp [pairedEntries, h4]
      · simp [pairedEntries, h5]
      · simpa only [pairLoop] using h6

end Sweeps

section PoolFacts

theorem mem_collectWaiting_ptr (h : Heap) (clients : Pool) (p : Ptr) :
    p ∈ (collectWaiting h clients).map Prod.snd ↔
      p ∈ clients.map Prod.snd ∧ (h p).State = ClientState.StateWaiting := by
  simp only [collectWaiting, List.mem_map, List.mem_filter, decide_eq_true_eq]
  constructor
  · rintro ⟨e, ⟨he, hs⟩, rfl⟩
    exact ⟨⟨e, he, rfl⟩, hs⟩
  · rintro ⟨⟨e, he, rfl⟩, hs⟩
    exact ⟨e, ⟨he, hs⟩, rfl⟩

theorem ptr_nodup_of_keyed (h : Heap) (clients : Pool)
    (hkeys : (clients.map Prod.fst).Nodup) (hid : ∀ e ∈ clients, (h e.2).Id = e.1) :
    (clients.map Prod.snd).Nodup := by
  have hmap : clients.map Prod.fst = (clients.map Prod.snd).map fun p => (h p).Id := by
    rw [List.map_map]
    exact List.map_congr_left fun e he => (hid e he).symm
  rw [hmap] at hkeys
  exact hkeys.of_map _

theorem entry_eq_of_ptr_eq (clients : Pool) (hptr : (clients.map Prod.snd).Nodup)
    (e1 e2 : String × Ptr) (h1 : e1 ∈ clients) (h2 : e2 ∈ clients) (h : e1.2 = e2.2) :
    e1 = e2 :=
  List.inj_on_of_nodup_map hptr h1 h2 h

theorem collectWaiting_sublist (h : Heap) (clients : Pool) :
    (collectWaiting h clients).Sublist clients :=
  List.filter_sublist _

theorem filter_unpaired (w : Pool) (hkeys : (w.map Prod.fst).Nodup) :
    (w.filter fun e => decide (e.1 ∉ (pairedEntries w).map Prod.fst)) = unpairedEntries w := by
  have hsplit := paired_append_unpaired w
  have hnd := hkeys
  rw [← hsplit, List.map_append, List.nodup_append] at hnd
  obtain ⟨_, _, hdisj⟩ := hnd
  conv_lhs => arg 2; rw [← hsplit]
  rw [List.filter_append]
  have h1 : (pairedEntries w).filter
      (fun e => decide (e.1 ∉ (pairedEntries w).map Prod.fst)) = [] := by
    rw [List.filter_eq_nil_iff]
    intro e he
    simp only [decide_eq_true_eq, not_not]
    exact List.mem_map_of_mem _ he
  have h2 : (unpairedEntries w).filter
      (fun e => decide (e.1 ∉ (pairedEntries w).map Prod.fst)) = unpairedEntries w := by
    rw [List.filter_eq_self]
    intro e he
    simp only [decide_eq_true_eq]
    intro hin
    exact hdisj hin (List.mem_map_of_mem _ he)
  rw [h1, h2, List.nil_append]

end PoolFacts

section SweepTheorems

/-- C4: in a pool whose entries are each keyed by the identity of their own
client, every pair that one run of `Matchmaking` dispatches consists of two
distinct clients of the pool that were waiting before the sweep; after the
sweep both are playing, the opponents list of each is exactly the other, and
neither is in the pool any more. When exactly two clients of the pool are
waiting, the sweep dispatches exactly one pair, made of those two. -/
theorem sweep_pairs_waiting_clients (h : Heap) (clients : Pool)
    (hkeys : (clients.map Prod.fst).Nodup)
    (hid : ∀ e ∈ clients, (h e.2).Id = e.1) :
    (∀ pr ∈ (Matchmaking h clients).started,
      pr.1 ≠ pr.2 ∧
      pr.1 ∈ clients.map Prod.snd ∧ pr.2 ∈ clients.map Prod.snd ∧
      (h pr.1).State = ClientState.StateWaiting ∧
      (h pr.2).State = ClientState.StateWaiting ∧
      ((Matchmaking h clients).heap pr.1).State = ClientState.StatePlaying ∧
      ((Matchmaking h clients).heap pr.2).State = ClientState.StatePlaying ∧
      ((Matchmaking h clients).heap pr.1).Opponents = [pr.2] ∧
      ((Matchmaking h clients).heap pr.2).Opponents = [pr.1] ∧
      pr.1 ∉ (Matchmaking h clients).clients.map Prod.snd ∧
      pr.2 ∉ (Matchmaking h clients).clients.map Prod.snd) ∧
    (∀ X Y : Ptr, X ≠ Y →
      (∀ p, (p ∈ clients.map Prod.snd ∧ (h p).State = ClientState.StateWaiting) ↔
        (p = X ∨ p = Y)) →
      (Matchmaking h clients).started = [(X, Y)] ∨
        (Matchmaking h clients).started = [(Y, X)]) := by
  have hptr := ptr_nodup_of_keyed h clients hkeys hid
  have hsub := collectWaiting_sublist h clients
  have hwnd : ((collectWaiting h clients).map Prod.snd).Nodup :=
    hptr.sublist (hsub.map Prod.snd)
  have hstarted : (Matchmaking h clients).started = pairUp (collectWaiting h clients) := by
    simp [Matchmaking, pairLoop_started]
  have hgone : ∀ p, p ∈ (pairedEntries (collectWaiting h clients)).map Prod.snd →
      p ∉ (Matchmaking h clients).clients.map Prod.snd := by
    intro p hp hin
    simp only [Matchmaking, pairLoop_clients, List.mem_map, List.mem_filter,
      decide_eq_true_eq] at hin
    obtain ⟨e, ⟨he, hkey⟩, rfl⟩ := hin
    obtain ⟨e2, he2, heq⟩ := List.mem_map.mp hp
    have he2c : e2 ∈ clients :=
      hsub.subset ((pairedEntries_sublist _).subset he2)
    have := entry_eq_of_ptr_eq clients hptr e2 e he2c he heq
    subst this
    exact hkey ⟨e2, he2, rfl⟩
  refine ⟨?_, ?_⟩
  · intro pr hpr
    rw [hstarted] at hpr
    obtain ⟨h1, h2, h3, h4, h5, h6, h7, h8, h9⟩ :=
      pairLoop_heap_pairs (collectWaiting h clients)
        { heap := h, clients := clients, started := [] } hwnd pr hpr
    have w1 := (mem_collectWaiting_ptr h clients pr.1).mp h2
    have w2 := (mem_collectWaiting_ptr h clients pr.2).mp h3
    exact ⟨h1, w1.1, w2.1, w1.2, w2.2, h6, h7, h8, h9, hgone _ h4, hgone _ h5⟩
  · intro X Y hXY hiff
    rw [hstarted]
    have hmem : ∀ p, p ∈ (collectWaiting h clients).map Prod.snd ↔ p = X ∨ p = Y :=
      fun p => (mem_collectWaiting_ptr h clients p).trans (hiff p)
    generalize collectWaiting h clients = w at hwnd hmem
    match w, hwnd, hmem with
    | [], _, hmem => exact absurd ((hmem X).mpr (Or.inl rfl)) (by simp)
    | [a], _, hmem =>
      have hx := (hmem X).mpr (Or.inl rfl)
      have hy := (hmem Y).mpr (Or.inr rfl)
      simp only [List.map_cons, List.map_nil, List.mem_singleton] at hx hy
      exact absurd (hx.trans hy.symm) hXY
    | [a, b], hwnd, hmem =>
      have ha := (hmem a.2).mp (by simp)
      have hb := (hmem b.2).mp (by simp)
      have hne : a.2 ≠ b.2 := by
        simp only [List.map_cons, List.map_nil, List.nodup_cons, List.mem_singleton] at hwnd
        exact hwnd.1
      simp only [pairUp]
      rcases ha with ha | ha <;> rcases hb with hb | hb
      · exact absurd (ha.trans hb.symm) hne
      · left; rw [ha, hb]
      · right; rw [ha, hb]
      · exact absurd (ha.trans hb.symm) hne
    | a :: b :: c :: rest, hwnd, hmem =>
      have ha := (hmem a.2).mp (by simp)
      have hb := (hmem b.2).mp (by simp)
      have hc := (hmem c.2).mp (by simp)
      simp only [List.map_cons, List.nodup_cons, List.mem_cons, not_or] at hwnd
      obtain ⟨⟨hab, hac, _⟩, ⟨hbc, _⟩, _⟩ := hwnd
      rcases ha with ha | ha <;> rcases hb with hb | hb <;> rcases hc with hc | hc <;>
        first
        | exact absurd (ha.trans hb.symm) hab
        | exact absurd (ha.trans hc.symm) hac
        | exact absurd (hb.trans hc.symm) hbc

/-- C5: on a pool of `n` distinct clients that are all waiting, one run of
`Matchmaking` dispatches exactly `n / 2` pairs and leaves exactly `n % 2`
entries in the pool; when `n` is odd the entry left is an entry of the pool,
its client is in no pair and is still waiting; when `n` is even the pool is
empty. -/
theorem sweep_counts (h : Heap) (clients : Pool)
    (hkeys : (clients.map Prod.fst).Nodup)
    (hptr : (clients.map Prod.snd).Nodup)
    (hall : ∀ e ∈ clients, (h e.2).State = ClientState.StateWaiting) :
    (Matchmaking h clients).started.length = clients.length / 2 ∧
    (Matchmaking h clients).clients.length = clients.length % 2 ∧
    (clients.length % 2 = 1 →
      ∃ e, (Matchmaking h clients).clients = [e] ∧ e ∈ clients ∧
        ((Matchmaking h clients).heap e.2).State = ClientState.StateWaiting ∧
        ∀ pr ∈ (Matchmaking h clients).started, pr.1 ≠ e.2 ∧ pr.2 ≠ e.2) ∧
    (clients.length % 2 = 0 → (Matchmaking h clients).clients = []) := by
  have hw : collectWaiting h clients = clients := by
    simp only [collectWaiting, List.filter_eq_self, decide_eq_true_eq]
    exact hall
  have hstarted : (Matchmaking h clients).started = pairUp clients := by
    simp [Matchmaking, pairLoop_started, hw]
  have hclients : (Matchmaking h clients).clients = unpairedEntries clients := by
    simp only [Matchmaking, pairLoop_clients, hw]
    exact filter_unpaired clients hkeys
  have hlen := unpaired_length clients
  refine ⟨by rw [hstarted, pairUp_length], by rw [hclients, hlen], ?_, ?_⟩
  · intro hodd
    rw [hodd] at hlen
    obtain ⟨e, he⟩ := List.length_eq_one.mp hlen
    have hsplit := paired_append_unpaired clients
    rw [he] at hsplit
    have hmem : e ∈ clients := by rw [← hsplit]; simp
    have hnd := hptr
    rw [← hsplit, List.map_append, List.nodup_append] at hnd
    obtain ⟨_, _, hdisj⟩ := hnd
    have hnot : e.2 ∉ (pairedEntries clients).map Prod.snd :=
      fun hin => hdisj hin (by simp)
    refine ⟨e, by rw [hclients, he], hmem, ?_, ?_⟩
    · simp only [Matchmaking, hw]
      rw [pairLoop_heap_other clients _ e.2 hnot]
      exact hall e hmem
    · intro pr hpr
      rw [hstarted] at hpr
      obtain ⟨_, _, _, h4, h5, _⟩ :=
        pairLoop_heap_pairs clients { heap := h, clients := clients, started := [] }
          hptr pr hpr
      exact ⟨fun heq => hnot (heq ▸ h4), fun heq => hnot (heq ▸ h5)⟩
  · intro heven
    rw [heven] at hlen
    rw [hclients]
    exact List.length_eq_zero.mp hlen

end SweepTheorems

section Divergences

/-- C6: two traversals of one and the same pool of three waiting clients: the
first pairs `a` with `b` and leaves `c`, the second pairs `c` with `a` and
leaves `b`. -/
theorem sweep_depends_on_traversal_order :
    samplePool3.Perm samplePool3Rotated ∧
    (Matchmaking sampleHeap samplePool3).started = [(1, 2)] ∧
    (Matchmaking sampleHeap samplePool3).clients = [("c", 3)] ∧
    (Matchmaking sampleHeap samplePool3Rotated).started = [(3, 1)] ∧
    (Matchmaking sampleHeap samplePool3Rotated).clients = [("b", 2)] := by
  refine ⟨by decide, by decide, by decide, by decide, by decide⟩

/-- C7: every failing path of `StartGame` returns its error with the client
objects untouched; for the pair that a sweep has just set to playing, both are
still playing after the error, whichever of the three failures occurs. -/
theorem startGame_failure_leaves_playing :
    (∀ (F : Type) [Float64 F] (h : Heap) (player1 player2 : Ptr) (c : String) (now : Int)
        (send1 send2 : Bool) (schedule : List (Step F)),
      StartGame h player1 player2 none now send1 send2 schedule =
        StartOutcome.failed StartError.readTextFile h [] ∧
      (StartGame h player1 player2 (some c) now false send2 schedule).isError = true ∧
      (StartGame h player1 player2 (some c) now false send2 schedule).heapAfter = h ∧
      (StartGame h player1 player2 (some c) now true false schedule).isError = true ∧
      (StartGame h player1 player2 (some c) now true false schedule).heapAfter = h) ∧
    (Matchmaking sampleHeap samplePool2).started = [(1, 2)] ∧
    ((StartGame (Matchmaking sampleHeap samplePool2).heap 1 2 none 0 true true
        ([] : List (Step Int))).heapAfter 1).State = ClientState.StatePlaying ∧
    ((StartGame (Matchmaking sampleHeap samplePool2).heap 1 2 none 0 true true
        ([] : List (Step Int))).heapAfter 2).State = ClientState.StatePlaying ∧
    ((StartGame (Matchmaking sampleHeap samplePool2).heap 1 2 (some passage50) 0 false true
        ([] : List (Step Int))).heapAfter 1).State = ClientState.StatePlaying ∧
    ((StartGame (Matchmaking sampleHeap samplePool2).heap 1 2 (some passage50) 0 true false
        ([] : List (Step Int))).heapAfter 2).State = ClientState.StatePlaying := by
  refine ⟨?_, by decide, by decide, by decide, by decide, by decide⟩
  intro F _ h player1 player2 c now send1 send2 schedule
  simp [StartGame, StartOutcome.isError, StartOutcome.heapAfter]

/-- C2: two progress reports of at least the passage length that the code does
not award. On a passage of 50 bytes, `characters_typed` = 1e30 converts to the
least `int`, the test `int(charsTyped) >= textLength` fails, and no
`game_over` is written. On a passage of 11 characters in 13 bytes, a report of
11 characters typed is compared with the 13 of `len(s.gameText)`, and no
`game_over` is written. -/
theorem completion_report_not_awarded :
    passage50.utf8ByteSize = 50 ∧ (50 : Int) ≤ report1e30 ∧
    Float64.toInt report1e30 = -9223372036854775808 ∧
    (run (initSys 1 2 passage50 : Sys Int)
      [Step.check true,
       Step.recv true (ReadResult.message (some (progressFields report1e30 80))),
       Step.endGame true]).session.gameOver = false ∧
    (run (initSys 1 2 passage50 : Sys Int)
      [Step.check true,
       Step.recv true (ReadResult.message (some (progressFields report1e30 80))),
       Step.endGame true]).pc true = LoopPC.atCheck ∧
    outbox true (run (initSys 1 2 passage50 : Sys Int)
      [Step.check true,
       Step.recv true (ReadResult.message (some (progressFields report1e30 80))),
       Step.endGame true]).log = [] ∧
    outbox false (run (initSys 1 2 passage50 : Sys Int)
      [Step.check true,
       Step.recv true (ReadResult.message (some (progressFields report1e30 80))),
       Step.endGame true]).log = [ServerMsg.opponentWpm 80] ∧
    accentedPassage.length = 11 ∧ accentedPassage.utf8ByteSize = 13 ∧
    (run (initSys 1 2 accentedPassage : Sys Int)
      [Step.check true,
       Step.recv true (ReadResult.message (some (progressFields 11 80))),
       Step.endGame true]).session.gameOver = false ∧
    outbox true (run (initSys 1 2 accentedPassage : Sys Int)
      [Step.check true,
       Step.recv true (ReadResult.message (some (progressFields 11 80))),
       Step.endGame true]).log = [] ∧
    outbox false (run (initSys 1 2 accentedPassage : Sys Int)
      [Step.check true,
       Step.recv true (ReadResult.message (some (progressFields 11 80))),
       Step.endGame true]).log = [ServerMsg.opponentWpm 80] := by
  refine ⟨by decide, by decide, by decide, by decide, by decide, by decide, by decide,
    by decide, by decide, by decide, by decide, by decide⟩

end Divergences

section StartGameTheorems
variable {F : Type} [Float64 F]

/-- C8: when `StartGame` has read the passage and sent both `game_start`
messages, and the schedule brings both loops to return (by a win, by a
disconnect, in any order), `StartGame` returns `nil` and both players are in
state waiting; and whenever `StartGame` returns `nil`, both players are in
state waiting. -/
theorem startGame_nil_resets_states (h : Heap) (player1 player2 : Ptr) (c : String)
    (now : Int) (schedule : List (Step F))
    (hdone1 : (run (initSys player1 player2 (trimSpace c)) schedule).pc1 = LoopPC.returned)
    (hdone2 : (run (initSys player1 player2 (trimSpace c)) schedule).pc2 = LoopPC.returned) :
    (StartGame h player1 player2 (some c) now true true schedule).isNil = true ∧
    ((StartGame h player1 player2 (some c) now true true schedule).heapAfter player1).State
      = ClientState.StateWaiting ∧
    ((StartGame h player1 player2 (some c) now true true schedule).heapAfter player2).State
      = ClientState.StateWaiting ∧
    (∀ (content : Option String) (send1 send2 : Bool) (other : List (Step F)),
      (StartGame h player1 player2 content now send1 send2 other).isNil = true →
      ((StartGame h player1 player2 content now send1 send2 other).heapAfter player1).State
        = ClientState.StateWaiting ∧
      ((StartGame h player1 player2 content now send1 send2 other).heapAfter player2).State
        = ClientState.StateWaiting) := by
  have hstore : ∀ p, (((h.store player1
        { h player1 with State := ClientState.StateWaiting }).store player2
        { (h.store player1 { h player1 with State := ClientState.StateWaiting }) player2
          with State := ClientState.StateWaiting }) p).State = ClientState.StateWaiting ∨
      p ≠ player1 ∧ p ≠ player2 := by
    intro p
    by_cases h2 : p = player2
    · left; simp [Heap.store, h2]
    · by_cases h1 : p = player1
      · left; simp [Heap.store, h1, h2]
        split <;> rfl
      · right; exact ⟨h1, h2⟩
  have hp1 := (hstore player1).resolve_right (fun hh => hh.1 rfl)
  have hp2 := (hstore player2).resolve_right (fun hh => hh.2 rfl)
  refine ⟨?_, ?_, ?_, ?_⟩
  · simp [StartGame, hdone1, hdone2, StartOutcome.isNil]
  · simpa [StartGame, hdone1, hdone2, StartOutcome.heapAfter] using hp1
  · simpa [StartGame, hdone1, hdone2, StartOutcome.heapAfter] using hp2
  · intro content send1 send2 other hnil
    cases content with
    | none => simp [StartGame, StartOutcome.isNil] at hnil
    | some c2 =>
      cases send1 with
      | false => simp [StartGame, StartOutcome.isNil] at hnil
      | true =>
        cases send2 with
        | false => simp [StartGame, StartOutcome.isNil] at hnil
        | true =>
          by_cases hr : (run (initSys player1 player2 (trimSpace c2) : Sys F) other).pc1
              = LoopPC.returned ∧
              (run (initSys player1 player2 (trimSpace c2) : Sys F) other).pc2
              = LoopPC.returned
          · constructor
            · simpa [StartGame, hr, StartOutcome.heapAfter] using hp1
            · simpa [StartGame, hr, StartOutcome.heapAfter] using hp2
          · simp only [StartGame] at hnil
            simp [hr, StartOutcome.isNil] at hnil

end StartGameTheorems

section Witnesses

/-- C10 as stated fails: after player 1 (loop of `handlePlayerGame`) handles
one progress message, the `opponent_wpm` relay has been written while the lock
was held; and a receive failure writes `opponent_disconnected` while the lock
is held. -/
theorem relay_and_notice_written_under_lock :
    writesUnderLock false (run (initSys 1 2 passage50 : Sys Int)
      [Step.check true,
       Step.recv true (ReadResult.message (some (progressFields 10 40)))]).log
      = [ServerMsg.opponentWpm 40] ∧
    writesUnderLock false (run (initSys 1 2 passage50 : Sys Int)
      [Step.check false, Step.recv false ReadResult.err]).log
      = [ServerMsg.opponentDisconnected] ∧
    ¬ (∀ l : List (Step Int),
        writesUnderLock false (run (initSys 1 2 passage50 : Sys Int) l).log = []) := by
  refine ⟨by decide, by decide, ?_⟩
  intro hall
  have := hall [Step.check false, Step.recv false ReadResult.err]
  revert this
  decide

/-- Witness for C1: both players of a 50-byte passage report 50 characters, player 1 first:
one pair of `game_over` messages, naming player 1 the winner. -/
theorem outcome_resolved_at_most_once_witness :
    gameOverWrites (run (step (run (initSys 1 2 passage50 : Sys Int)
        [Step.check true, Step.check false])
        (Step.recv true (ReadResult.message (some (progressFields 50 80)))))
        [Step.recv false (ReadResult.message (some (progressFields 50 70))),
         Step.endGame true, Step.check false]).log =
      [(true, ServerMsg.gameOver GameResult.win 80 70),
       (false, ServerMsg.gameOver GameResult.lose 70 80)] ∧
    ∃ y, gameOverWrites (run (step (run (initSys 1 2 passage50 : Sys Int)
        [Step.check true, Step.check false])
        (Step.recv true (ReadResult.message (some (progressFields 50 80)))))
        [Step.recv false (ReadResult.message (some (progressFields 50 70))),
         Step.endGame true, Step.check false]).log =
      [(true, ServerMsg.gameOver GameResult.win 80 y),
       (!true, ServerMsg.gameOver GameResult.lose y 80)] :=
  ⟨by decide,
   ((outcome_resolved_at_most_once 1 2 passage50 [Step.check true, Step.check false]
      [Step.recv false (ReadResult.message (some (progressFields 50 70))),
       Step.endGame true, Step.check false]).2.2.2 true 50 80
      (by decide) (by decide) (by decide)).2.2 (by decide)⟩

/-- The scenario of the specification: passage of 50 bytes, player 1 reports
50 characters at 80 wpm before player 2 reports anything. -/
theorem win_by_completion_messages_witness :
    (run (initSys 1 2 passage50 : Sys Int) [Step.check true]).pc true = LoopPC.atRead ∧
    (run (initSys 1 2 passage50 : Sys Int) [Step.check true]).session.gameOver = false ∧
    outbox true (run (initSys 1 2 passage50 : Sys Int)
        [Step.check true,
         Step.recv true (ReadResult.message (some (progressFields 50 80))),
         Step.endGame true]).log
      = [ServerMsg.gameOver GameResult.win 80 0] ∧
    outbox false (run (initSys 1 2 passage50 : Sys Int)
        [Step.check true,
         Step.recv true (ReadResult.message (some (progressFields 50 80))),
         Step.endGame true]).log
      = [ServerMsg.opponentWpm 80, ServerMsg.gameOver GameResult.lose 0 80] :=
  ⟨by decide, by decide,
   ((win_by_completion_messages (run (initSys 1 2 passage50 : Sys Int) [Step.check true])
      true (progressFields 50 80) 50 80 [] (by decide) (by decide) (by decide) (by decide)
      (by decide) (by decide) (by simp)).2.2.2.2 1 2 passage50 50 80 (by decide)
      (by decide))⟩

/-- Witness for C3, the scenario of the specification: player 2 fails while player 1 has typed
10 characters of a 50-byte passage. -/
theorem disconnect_notifies_opponent_only_witness :
    (run (initSys 1 2 passage50 : Sys Int)
      [Step.check true, Step.check false,
       Step.recv true (ReadResult.message (some (progressFields 10 40)))]).session.gameOver
      = false ∧
    (run (initSys 1 2 passage50 : Sys Int)
      [Step.check true, Step.check false,
       Step.recv true (ReadResult.message (some (progressFields 10 40)))]).pc false
      = LoopPC.atRead ∧
    outbox true (run (initSys 1 2 passage50 : Sys Int)
      [Step.check true, Step.check false,
       Step.recv true (ReadResult.message (some (progressFields 10 40))),
       Step.recv false ReadResult.err, Step.check true]).log
      = [ServerMsg.opponentDisconnected] ∧
    (outbox (!false) (run (step (run (initSys 1 2 passage50 : Sys Int)
      [Step.check true, Step.check false,
       Step.recv true (ReadResult.message (some (progressFields 10 40)))])
      (Step.recv false ReadResult.err)) [Step.check true]).log).countP
        ServerMsg.isDisconnected = 1 :=
  ⟨by decide, by decide, by decide,
   (disconnect_notifies_opponent_only 1 2 passage50
      [Step.check true, Step.check false,
       Step.recv true (ReadResult.message (some (progressFields 10 40)))]
      [Step.check true] false (by decide) (by decide)).2.2.1⟩

/-- Witness for C9: a progress message of 10 characters at 40 wpm from player 1. -/
theorem progress_recorded_and_relayed_witness :
    (run (initSys 1 2 passage50 : Sys Int) [Step.check true]).pc true = LoopPC.atRead ∧
    (step (run (initSys 1 2 passage50 : Sys Int) [Step.check true])
      (Step.recv true (ReadResult.message (some (progressFields 10 40))))).session.wpmOf true
      = 40 ∧
    (step (run (initSys 1 2 passage50 : Sys Int) [Step.check true])
      (Step.recv true (ReadResult.message
        (some (progressFields 10 40))))).session.progressOfPlayer true
      = Float64.toInt (10 : Int) :=
  ⟨by decide,
   (progress_recorded_and_relayed (run (initSys 1 2 passage50 : Sys Int) [Step.check true])
      true (progressFields 10 40) 10 40 (by decide) (by decide) (by decide) (by decide)).2.1,
   (progress_recorded_and_relayed (run (initSys 1 2 passage50 : Sys Int) [Step.check true])
      true (progressFields 10 40) 10 40 (by decide) (by decide) (by decide) (by decide)).1⟩

/-- Witness for C4, the scenario of the specification: two waiting clients in the pool. -/
theorem sweep_pairs_waiting_clients_witness :
    (samplePool2.map Prod.fst).Nodup ∧
    (∀ e ∈ samplePool2, (sampleHeap e.2).Id = e.1) ∧
    (Matchmaking sampleHeap samplePool2).clients = [] ∧
    ((Matchmaking sampleHeap samplePool2).started = [(1, 2)] ∨
      (Matchmaking sampleHeap samplePool2).started = [(2, 1)]) :=
  ⟨by decide, by decide, by decide,
   (sweep_pairs_waiting_clients sampleHeap samplePool2 (by decide) (by decide)).2 1 2
      (by decide) (by
        intro p
        simp only [samplePool2, List.map_cons, List.map_nil, List.mem_cons,
          List.mem_singleton, List.not_mem_nil, or_false]
        constructor
        · exact fun hp => hp.1
        · rintro (rfl | rfl) <;> exact ⟨by simp, by decide⟩)⟩

/-- Witness for C5: three waiting clients give one pair, and `c` stays in the pool, waiting. -/
theorem sweep_counts_witness :
    (samplePool3.map Prod.fst).Nodup ∧ (samplePool3.map Prod.snd).Nodup ∧
    (∀ e ∈ samplePool3, (sampleHeap e.2).State = ClientState.StateWaiting) ∧
    (Matchmaking sampleHeap samplePool3).started.length = 1 ∧
    (Matchmaking sampleHeap samplePool3).clients.length = 1 ∧
    ((Matchmaking sampleHeap samplePool3).heap 3).State = ClientState.StateWaiting :=
  ⟨by decide, by decide, by decide,
   (sweep_counts sampleHeap samplePool3 (by decide) (by decide) (by decide)).1,
   (sweep_counts sampleHeap samplePool3 (by decide) (by decide) (by decide)).2.1,
   by decide⟩

/-- Witness for C8: player 1 disconnects, then player 2 sees the flag and returns. -/
theorem startGame_nil_resets_states_witness :
    (run (initSys 1 2 (trimSpace passage50) : Sys Int)
      [Step.check true, Step.check false, Step.recv true ReadResult.err,
       Step.recv false (ReadResult.message none), Step.check false]).pc1
      = LoopPC.returned ∧
    (run (initSys 1 2 (trimSpace passage50) : Sys Int)
      [Step.check true, Step.check false, Step.recv true ReadResult.err,
       Step.recv false (ReadResult.message none), Step.check false]).pc2
      = LoopPC.returned ∧
    ((StartGame (Matchmaking sampleHeap samplePool2).heap 1 2 (some passage50) 0 true true
      ([Step.check true, Step.check false, Step.recv true ReadResult.err,
        Step.recv false (ReadResult.message none), Step.check false] :
        List (Step Int))).heapAfter 1).State = ClientState.StateWaiting :=
  ⟨by decide, by decide,
   (startGame_nil_resets_states (Matchmaking sampleHeap samplePool2).heap 1 2 passage50 0
      [Step.check true, Step.check false, Step.recv true ReadResult.err,
       Step.recv false (ReadResult.message none), Step.check false]
      (by decide) (by decide)).2.1⟩

end Witnesses

end GoType
